import Mathlib

/-!
Verification development for the ra-bridge protocol-translation bridge.

This file shallowly embeds the core pure logic of the bridge in Lean 4:

* the RA2 text-protocol grammar (`src/ra2_protocol.rs`),
* the bidirectional identifier maps (`src/id_map.rs`, `src/savant_id_map.rs`),
* configuration validation and the savant-discovery save path
  (`src/config.rs`, `src/web/routes.rs`),
* the RA2-to-LEAP and RA2-to-Savant translators
  (`src/translator.rs`, `src/savant_translator.rs`),
* the Savant wire encoding of load keys (`src/savant_client.rs`),
* the orchestrator's per-command routing decision (`src/bridge.rs`),
* the reconnect-backoff state machine shared by both backend clients
  (`src/leap_client.rs`, `src/savant_client.rs`),
* the file-system side effects of the TLS pairing flow (`src/leap_pairing.rs`).

Rust strings are modelled as `List Char` (a list of Unicode scalar values);
Rust `f64` values that only flow through the bridge (levels, fades) are
modelled as exact rationals `ℚ`; `u32`/`u64`/`usize` are modelled as `Nat`
with explicit `% 2 ^ w` wrapping where the source can overflow.
Fallible operations return `Option`/`Except`, and the one reachable panic
site (a byte-indexed string slice) is modelled with an explicit
`PanicOr` result type.
-/

/-- Unicode code points with the White_Space property, as used by Rust's
`str::trim`. -/
def rustWhitespaceCodes : List Nat :=
  [0x09, 0x0A, 0x0B, 0x0C, 0x0D, 0x20, 0x85, 0xA0, 0x1680,
   0x2000, 0x2001, 0x2002, 0x2003, 0x2004, 0x2005, 0x2006, 0x2007,
   0x2008, 0x2009, 0x200A, 0x2028, 0x2029, 0x202F, 0x205F, 0x3000]

/-- Model of Rust `char::is_whitespace`. -/
def rustIsWhitespace (c : Char) : Bool :=
  rustWhitespaceCodes.contains c.toNat

/-- Model of Rust `str::trim`: drop leading and trailing whitespace. -/
def trimStr (s : List Char) : List Char :=
  ((s.dropWhile rustIsWhitespace).reverse.dropWhile rustIsWhitespace).reverse

/-- Model of Rust `str::split(sep)` for a single-character separator.
Like Rust's `split`, an empty input yields one empty field. -/
def splitOnChar (sep : Char) : List Char → List (List Char)
  | [] => [[]]
  | c :: rest =>
    if c = sep then [] :: splitOnChar sep rest
    else
      match splitOnChar sep rest with
      | [] => [[c]]
      | p :: ps => (c :: p) :: ps

/-- ASCII decimal digit test (Rust digits in `from_str` grammars). -/
def isDecDigit (c : Char) : Bool := decide ('0' ≤ c) && decide (c ≤ '9')

/-- Numeric value of a list of ASCII decimal digit characters
(most significant first). -/
def digitsVal (cs : List Char) : Nat :=
  cs.foldl (fun a c => a * 10 + (c.toNat - '0'.toNat)) 0

/-- Model of Rust `str::parse::<u32>`: an optional leading plus sign, then
one or more decimal digits; the value must fit in 32 bits. -/
def parse_u32 (s : List Char) : Option Nat :=
  let s' := match s with
    | c :: r => if c = '+' then r else c :: r
    | [] => []
  if s' ≠ [] ∧ s'.all isDecDigit then
    let v := digitsVal s'
    if v < 2 ^ 32 then some v else none
  else none

/-- Hexadecimal digit value of a character (both cases), as accepted by
Rust `u32::from_str_radix(_, 16)`. -/
def hexDigitVal (c : Char) : Option Nat :=
  if isDecDigit c then some (c.toNat - '0'.toNat)
  else if decide ('a' ≤ c) && decide (c ≤ 'f') then some (c.toNat - 'a'.toNat + 10)
  else if decide ('A' ≤ c) && decide (c ≤ 'F') then some (c.toNat - 'A'.toNat + 10)
  else none

/-- Numeric value of a list of hex digit characters (most significant
first). -/
def hexVal (cs : List Char) : Nat :=
  cs.foldl (fun a c => a * 16 + (hexDigitVal c).getD 0) 0

/-- Model of Rust `u32::from_str_radix(s, 16)`: an optional leading plus
sign, then one or more hex digits of either case; overflow is an error. -/
def parse_hex_u32 (s : List Char) : Option Nat :=
  let s' := match s with
    | c :: r => if c = '+' then r else c :: r
    | [] => []
  if s' ≠ [] ∧ s'.all (fun c => (hexDigitVal c).isSome) then
    let v := hexVal s'
    if v < 2 ^ 32 then some v else none
  else none

/-- Model of Rust `str::parse::<f64>` restricted to the finite decimal
fragment `[+-]? digits [. digits*]? ([eE] [+-]? digits)?` (with at least
one mantissa digit); the parsed value is kept as an exact rational.
The special forms `inf`/`NaN` are outside the modelled fragment. -/
def parse_f64 (s : List Char) : Option ℚ :=
  let (sgn, s1) : ℚ × List Char := match s with
    | c :: r =>
      if c = '-' then (-1, r) else if c = '+' then (1, r) else (1, c :: r)
    | [] => (1, [])
  let ip := s1.takeWhile isDecDigit
  let r1 := s1.dropWhile isDecDigit
  let (fp, r2) : List Char × List Char := match r1 with
    | '.' :: r => (r.takeWhile isDecDigit, r.dropWhile isDecDigit)
    | _ => ([], r1)
  if ip = [] ∧ fp = [] then none
  else
    let mant : ℚ := (digitsVal ip : ℚ) + (digitsVal fp : ℚ) / (10 : ℚ) ^ fp.length
    match r2 with
    | [] => some (sgn * mant)
    | e :: r =>
      if e = 'e' ∨ e = 'E' then
        let (esgn, r') : ℤ × List Char := match r with
          | c2 :: t =>
            if c2 = '-' then (-1, t) else if c2 = '+' then (1, t) else (1, c2 :: t)
          | [] => (1, [])
        let ed := r'.takeWhile isDecDigit
        if ed = [] ∨ r'.dropWhile isDecDigit ≠ [] then none
        else some (sgn * mant * (10 : ℚ) ^ (esgn * (digitsVal ed : ℤ)))
      else none

/-- Fuel-driven digit extraction in base 10 (structural recursion on the
fuel, so that it reduces inside the kernel). -/
def toDecRevF : Nat → Nat → List Nat
  | 0, _ => []
  | fuel + 1, n => if n = 0 then [] else n % 10 :: toDecRevF fuel (n / 10)

/-- Little-endian decimal digit values of a natural number (empty for 0). -/
def toDecRev (n : Nat) : List Nat := toDecRevF n n

/-- Fuel-driven digit extraction in base 16. -/
def toHexRevF : Nat → Nat → List Nat
  | 0, _ => []
  | fuel + 1, n => if n = 0 then [] else n % 16 :: toHexRevF fuel (n / 16)

/-- Little-endian hexadecimal digit values of a natural number (empty for
0). -/
def toHexRev (n : Nat) : List Nat := toHexRevF n n

/-- Value of little-endian digits in a base. -/
def ofDigitsRev (base : Nat) : List Nat → Nat
  | [] => 0
  | d :: ds => d + base * ofDigitsRev base ds

/-- Character for a decimal digit value below 10. -/
def decDigitChar (d : Nat) : Char := Char.ofNat ('0'.toNat + d)

/-- Lowercase character for a hex digit value below 16 (Rust `{:x}`). -/
def hexCharLower (d : Nat) : Char :=
  if d < 10 then Char.ofNat ('0'.toNat + d) else Char.ofNat ('a'.toNat + d - 10)

/-- Uppercase character for a hex digit value below 16 (Rust `{:X}`). -/
def hexCharUpper (d : Nat) : Char :=
  if d < 10 then Char.ofNat ('0'.toNat + d) else Char.ofNat ('A'.toNat + d - 10)

/-- Model of Rust `format!("{}", n)` for an unsigned integer. -/
def natToDec (n : Nat) : List Char :=
  if n = 0 then ['0'] else ((toDecRev n).map decDigitChar).reverse

/-- Model of Rust `format!("{:x}", n)`. -/
def natToHexLower (n : Nat) : List Char :=
  if n = 0 then ['0'] else ((toHexRev n).map hexCharLower).reverse

/-- Model of Rust `format!("{:X}", n)` (no padding). -/
def natToHexUpper (n : Nat) : List Char :=
  if n = 0 then ['0'] else ((toHexRev n).map hexCharUpper).reverse

/-- Model of Rust `format!("{:03X}", n)`: uppercase hex, left-padded with
zeros to a minimum width of three. -/
def fmtHexUpper3 (n : Nat) : List Char :=
  let s := natToHexUpper n
  List.replicate (3 - s.length) '0' ++ s

/-- Model of Rust `format!("{:02}", n)`: decimal, left-padded with zeros to
a minimum width of two. -/
def fmtDec2 (n : Nat) : List Char :=
  let s := natToDec n
  List.replicate (2 - s.length) '0' ++ s

/-- Round a rational to the nearest integer, ties to even — the rounding
used by Rust's fixed-precision float formatting. -/
def roundHalfEven (q : ℚ) : ℤ :=
  let f := ⌊q⌋
  let r := q - f
  if r < 1 / 2 then f
  else if 1 / 2 < r then f + 1
  else if f % 2 = 0 then f else f + 1

/-- Model of Rust `format!("{:.2}", q)` on a finite value: the value
rendered with exactly two digits after the decimal point. -/
def fmt2 (q : ℚ) : List Char :=
  let n := roundHalfEven (q * 100)
  let m := n.natAbs
  (if q < 0 then ['-'] else []) ++
    natToDec (m / 100) ++ '.' ::
      (if m % 100 < 10 then '0' :: natToDec (m % 100) else natToDec (m % 100))

/-- Result of running Rust code that can panic: either a panic, or a value.
The one modelled panic site is the byte-indexed string slice in
`parse_command`. -/
inductive PanicOr (α : Type) where
  | panicked
  | ok (val : α)
deriving DecidableEq, Repr

/-- RA2 commands, from `src/ra2_protocol.rs` (`Ra2Command`). Levels and
fades are `f64` in the source, modelled as exact rationals. -/
inductive Ra2Command where
  | SetOutput (id : Nat) (level : ℚ) (fade : Option ℚ)
  | QueryOutput (id : Nat)
  | Monitoring (mon_type : Nat) (enable : Bool)
deriving DecidableEq, Repr

/-- RA2 events, from `src/ra2_protocol.rs` (`Ra2Event`). -/
inductive Ra2Event where
  | OutputLevel (id : Nat) (level : ℚ)
deriving DecidableEq, Repr

/-- Model of `parse_action` in `src/ra2_protocol.rs`. -/
def parse_action (parts : List (List Char)) : Option Ra2Command :=
  match parts with
  | [] => none
  | p0 :: rest =>
    let up := p0.map Char.toUpper
    if up = "OUTPUT".data then
      match rest with
      | p1 :: p2 :: p3 :: rest2 =>
        match parse_u32 (trimStr p1) with
        | none => none
        | some id =>
          match parse_u32 (trimStr p2) with
          | none => none
          | some action =>
            if action ≠ 1 then none
            else
              match parse_f64 (trimStr p3) with
              | none => none
              | some level =>
                let fade := match rest2 with
                  | p4 :: _ => parse_f64 (trimStr p4)
                  | [] => none
                some (.SetOutput id level fade)
      | _ => none
    else if up = "MONITORING".data then
      match rest with
      | p1 :: p2 :: _ =>
        match parse_u32 (trimStr p1) with
        | none => none
        | some mon_type =>
          match parse_u32 (trimStr p2) with
          | none => none
          | some action => some (.Monitoring mon_type (action = 1))
      | _ => none
    else none

/-- Model of `parse_query` in `src/ra2_protocol.rs`. -/
def parse_query (parts : List (List Char)) : Option Ra2Command :=
  match parts with
  | [] => none
  | p0 :: rest =>
    let up := p0.map Char.toUpper
    if up = "OUTPUT".data then
      match rest with
      | p1 :: _ :: _ =>
        match parse_u32 (trimStr p1) with
        | none => none
        | some id => some (.QueryOutput id)
      | _ => none
    else none

/-- Model of `parse_command` in `src/ra2_protocol.rs`. The source reads
the first byte with `line.as_bytes()[0]` and then slices `&line[1..]`;
that byte slice is only at a character boundary when the first character
is a single UTF-8 byte, so for a multi-byte first character the source
panics, modelled by `PanicOr.panicked`. -/
def parse_command (line : List Char) : PanicOr (Option Ra2Command) :=
  let l := trimStr line
  match l with
  | [] => .ok none
  | c :: rest =>
    if c.utf8Size = 1 then
      let parts := splitOnChar ',' rest
      if c = '#' then .ok (parse_action parts)
      else if c = '?' then .ok (parse_query parts)
      else .ok none
    else .panicked

/-- Model of `format_event` in `src/ra2_protocol.rs`:
`format!("~OUTPUT,{},1,{:.2}", id, level)`. -/
def format_event (event : Ra2Event) : List Char :=
  match event with
  | .OutputLevel id level =>
    "~OUTPUT,".data ++ natToDec id ++ ",1,".data ++ fmt2 level

/-- LEAP zone mapping entry, from `src/config.rs` (`ZoneMapping`). -/
structure ZoneMapping where
  ra2_id : Nat
  leap_href : List Char
  name : List Char
deriving DecidableEq, Repr

/-- Savant zone mapping entry, from `src/config.rs` (`SavantZoneMapping`). -/
structure SavantZoneMapping where
  ra2_id : Nat
  address : List Char
  load_offset : Nat
  name : List Char
  room : List Char
deriving DecidableEq, Repr

/-- Savant connection settings, from `src/config.rs` (`SavantConfig`). -/
structure SavantConfig where
  host : List Char
  port : Nat
deriving DecidableEq, Repr

/-- LEAP processor settings, from `src/config.rs` (`ProcessorConfig`). -/
structure ProcessorConfig where
  host : List Char
  leap_port : Nat
deriving DecidableEq, Repr

/-- Bridge configuration, from `src/config.rs` (`Config`); the telnet and
web sections carry only ports and play no role in the claims, so they are
kept as plain numbers. -/
structure Config where
  processor : ProcessorConfig
  telnet_port : Nat
  web_port : Nat
  zones : List ZoneMapping
  savant : Option SavantConfig
  savant_zones : List SavantZoneMapping
deriving DecidableEq, Repr

/-- Model of `Config::has_leap`. -/
def Config.has_leap (c : Config) : Bool := !c.zones.isEmpty

/-- Model of `Config::has_savant`. -/
def Config.has_savant (c : Config) : Bool :=
  c.savant.isSome && !c.savant_zones.isEmpty

/-- The single-quote character, used in the savant duplicate-id message. -/
def squoteChar : Char := Char.ofNat 39

/-- Error text of `Config::validate` for a duplicate id found while
scanning the LEAP zone list. -/
def dupLeapMsg (id : Nat) : List Char :=
  "Duplicate ra2_id ".data ++ natToDec id ++ " in LEAP zones".data

/-- Error text of `Config::validate` for a duplicate id found while
scanning the Savant zone list. -/
def dupSavantMsg (id : Nat) (name : List Char) : List Char :=
  "Duplicate ra2_id ".data ++ natToDec id ++ " (Savant zone ".data ++
    squoteChar :: name ++ squoteChar :: " conflicts with existing zone)".data

/-- First loop of `Config::validate`: fold the LEAP zone list into the
`seen` set (modelled as a list), failing on the first id already seen.
Mirrors `seen.insert(z.ra2_id)` returning `false`. -/
def validateLeapZones (seen : List Nat) : List ZoneMapping → Except (List Char) (List Nat)
  | [] => .ok seen
  | z :: zs =>
    if z.ra2_id ∈ seen then .error (dupLeapMsg z.ra2_id)
    else validateLeapZones (z.ra2_id :: seen) zs

/-- Second loop of `Config::validate`, over the Savant zone list. -/
def validateSavantZones (seen : List Nat) : List SavantZoneMapping → Except (List Char) Unit
  | [] => .ok ()
  | z :: zs =>
    if z.ra2_id ∈ seen then .error (dupSavantMsg z.ra2_id z.name)
    else validateSavantZones (z.ra2_id :: seen) zs

/-- Model of `Config::validate` in `src/config.rs`: reject duplicate
`ra2_id`s across the two zone lists. -/
def Config.validate (c : Config) : Except (List Char) Unit :=
  match validateLeapZones [] c.zones with
  | .error e => .error e
  | .ok seen => validateSavantZones seen c.savant_zones

/-- Terminal status of the savant-discovery task, from
`src/web/routes.rs` (`SavantDiscoveryStatus`). -/
inductive SavantDiscoveryStatus where
  | Connecting
  | Enumerating (device_count : Nat)
  | Failed (message : List Char)
  | Complete (zone_count : Nat)
deriving DecidableEq, Repr

/-- Observable result of the savant-discovery save path: the final status
and the configuration written to disk, `none` when nothing was saved. -/
structure SavantDiscoverResult where
  status : SavantDiscoveryStatus
  savedConfig : Option Config
deriving DecidableEq, Repr

/-- Model of the configuration-merge, validate and save steps of
`savant_discover` in `src/web/routes.rs` (lines 540-578), on the path
where discovery returned `savant_config` and `savant_zones`. A failed
validation sends `Failed` and returns before `config.save`; a write
failure (not modelled) likewise saves nothing. -/
def savant_discover_apply (base : Config) (savant_config : SavantConfig)
    (savant_zones : List SavantZoneMapping) : SavantDiscoverResult :=
  let config := { base with savant := some savant_config, savant_zones := savant_zones }
  match config.validate with
  | .error e => ⟨.Failed e, none⟩
  | .ok _ => ⟨.Complete savant_zones.length, some config⟩

/-- Functional model of `std::collections::HashMap` insertion: later
inserts overwrite earlier ones. -/
def hmInsert {α β : Type} [DecidableEq α] (m : α → Option β) (k : α) (v : β) :
    α → Option β :=
  fun x => if x = k then some v else m x

/-- Bidirectional RA2-id/LEAP-href map, from `src/id_map.rs` (`IdMap`);
each `HashMap` is modelled as a lookup function. -/
structure IdMap where
  ra2_to_leap : Nat → Option (List Char)
  leap_to_ra2 : List Char → Option Nat

/-- Model of `IdMap::from_zones`: insert both directions for every zone,
in list order. -/
def IdMap.from_zones (zones : List ZoneMapping) : IdMap where
  ra2_to_leap :=
    zones.foldl (fun m z => hmInsert m z.ra2_id z.leap_href) (fun _ => none)
  leap_to_ra2 :=
    zones.foldl (fun m z => hmInsert m z.leap_href z.ra2_id) (fun _ => none)

/-- Bidirectional RA2-id/Savant-key map, from `src/savant_id_map.rs`
(`SavantIdMap`); keys are `(module address, load offset)` pairs. -/
structure SavantIdMap where
  ra2_to_savant : Nat → Option (List Char × Nat)
  savant_to_ra2 : List Char × Nat → Option Nat

/-- Model of `SavantIdMap::from_zones`. -/
def SavantIdMap.from_zones (zones : List SavantZoneMapping) : SavantIdMap where
  ra2_to_savant :=
    zones.foldl (fun m z => hmInsert m z.ra2_id (z.address, z.load_offset)) (fun _ => none)
  savant_to_ra2 :=
    zones.foldl (fun m z => hmInsert m (z.address, z.load_offset) z.ra2_id) (fun _ => none)

/-- JSON values (`serde_json::Value`); numbers are kept as exact
rationals. -/
inductive Json where
  | null
  | bool (b : Bool)
  | num (q : ℚ)
  | str (s : List Char)
  | arr (xs : List Json)
  | obj (fields : List (List Char × Json))

/-- Model of `serde_json::Value::get` on an object key. -/
def Json.get (j : Json) (key : List Char) : Option Json :=
  match j with
  | .obj fields => (fields.find? (fun f => f.1 = key)).map (·.2)
  | _ => none

/-- Model of `serde_json::Value::as_f64`. -/
def Json.as_f64 : Json → Option ℚ
  | .num q => some q
  | _ => none

/-- Model of `serde_json::Value::as_str`. -/
def Json.as_str : Json → Option (List Char)
  | .str s => some s
  | _ => none

/-- LEAP request header, from `src/leap_client.rs` (`LeapHeader`). -/
structure LeapHeader where
  url : List Char
  client_tag : Option (List Char)
  extra : List (List Char × Json)

/-- LEAP request, from `src/leap_client.rs` (`LeapRequest`). -/
structure LeapRequest where
  communique_type : List Char
  header : LeapHeader
  body : Option Json

/-- LEAP event header, from `src/leap_client.rs` (`LeapEventHeader`). -/
structure LeapEventHeader where
  url : List Char
  status_code : Option (List Char)
  extra : List (List Char × Json)

/-- LEAP event, from `src/leap_client.rs` (`LeapEvent`). -/
structure LeapEvent where
  communique_type : List Char
  header : LeapEventHeader
  body : Json

/-- Saturating cast of a rational to `u64`, modelling Rust
`f as u64` on a finite `f64`: truncate toward zero, clamp to the range. -/
def ratAsU64 (q : ℚ) : Nat :=
  if q < 0 then 0 else min (⌊q⌋.toNat) (2 ^ 64 - 1)

/-- Fade-time rendering of `ra2_to_leap`:
`format!("{:02}:{:02}:{:02}", t/3600, (t%3600)/60, t%60)` with
`t = fade_time as u64`. -/
def fmtFadeTime (fade_time : ℚ) : List Char :=
  let t := ratAsU64 fade_time
  fmtDec2 (t / 3600) ++ ':' :: fmtDec2 (t % 3600 / 60) ++ ':' :: fmtDec2 (t % 60)

/-- Model of `ra2_to_leap` in `src/translator.rs`: translate an RA2
command into a LEAP request using the identifier map. -/
def ra2_to_leap (cmd : Ra2Command) (map : IdMap) : Option LeapRequest :=
  match cmd with
  | .SetOutput id level fade =>
    match map.ra2_to_leap id with
    | none => none
    | some href =>
      let url := href ++ "/commandprocessor".data
      let body : Json :=
        match fade with
        | some fade_time =>
          .obj [("Command".data, .obj
            [("CommandType".data, .str "GoToDimmedLevel".data),
             ("DimmedLevelParameters".data, .obj
               [("Level".data, .num level),
                ("FadeTime".data, .str (fmtFadeTime fade_time))])])]
        | none =>
          .obj [("Command".data, .obj
            [("CommandType".data, .str "GoToLevel".data),
             ("Parameter".data, .arr
               [.obj [("Type".data, .str "Level".data),
                      ("Value".data, .num level)]])])]
      some { communique_type := "CreateRequest".data,
             header := { url := url, client_tag := none, extra := [] },
             body := some body }
  | .QueryOutput id =>
    match map.ra2_to_leap id with
    | none => none
    | some href =>
      some { communique_type := "ReadRequest".data,
             header := { url := href ++ "/status".data, client_tag := none, extra := [] },
             body := none }
  | .Monitoring _ _ => none

/-- Href extraction of `leap_to_ra2` (lines 72-90 of
`src/translator.rs`): the zone href comes from the body's `Zone.href`
or, as fallback, from a header URL of the form `/zone/N/...`. -/
def leapEventZoneHref (zone_status : Json) (url : List Char) : Option (List Char) :=
  match ((zone_status.get "Zone".data).bind (fun z => z.get "href".data)).bind Json.as_str with
  | some h => some h
  | none =>
    match splitOnChar '/' url with
    | _ :: p1 :: p2 :: _ =>
      if p1 = "zone".data then some ('/' :: p1 ++ '/' :: p2) else none
    | _ => none

/-- Model of `leap_to_ra2` in `src/translator.rs`: translate a LEAP
zone-status event into an RA2 event. -/
def leap_to_ra2 (event : LeapEvent) (map : IdMap) : Option Ra2Event :=
  match event.body.get "ZoneStatus".data with
  | none => none
  | some zone_status =>
    match (zone_status.get "Level".data).bind Json.as_f64 with
    | none => none
    | some level =>
      match leapEventZoneHref zone_status event.header.url with
      | none => none
      | some href =>
        match map.leap_to_ra2 href with
        | none => none
        | some ra2_id => some (.OutputLevel ra2_id level)

/-- Savant request, from `src/savant_client.rs` (`SavantRequest`). -/
inductive SavantRequest where
  | SetLoad (address : List Char) (load_offset : Nat) (level : ℚ)
  | QueryLoad (address : List Char) (load_offset : Nat)
deriving DecidableEq, Repr

/-- Savant event, from `src/savant_client.rs` (`SavantEvent`). -/
inductive SavantEvent where
  | LoadLevel (address : List Char) (load_offset : Nat) (level : ℚ)
deriving DecidableEq, Repr

/-- Model of `ra2_to_savant` in `src/savant_translator.rs`. -/
def ra2_to_savant (cmd : Ra2Command) (map : SavantIdMap) : Option SavantRequest :=
  match cmd with
  | .SetOutput id level _ =>
    match map.ra2_to_savant id with
    | none => none
    | some (address, load_offset) => some (.SetLoad address load_offset level)
  | .QueryOutput id =>
    match map.ra2_to_savant id with
    | none => none
    | some (address, load_offset) => some (.QueryLoad address load_offset)
  | .Monitoring _ _ => none

/-- Model of `savant_to_ra2` in `src/savant_translator.rs`. -/
def savant_to_ra2 (event : SavantEvent) (map : SavantIdMap) : Option Ra2Event :=
  match event with
  | .LoadLevel address load_offset level =>
    match map.savant_to_ra2 (address, load_offset) with
    | none => none
    | some ra2_id => some (.OutputLevel ra2_id level)

/-- Model of Rust `f.round() as u32` on a finite `f64`: round half away
from zero, then clamp to the `u32` range. -/
def ratRoundAsU32 (q : ℚ) : Nat :=
  if q < 0 then 0 else min (⌊q + 1 / 2⌋.toNat) (2 ^ 32 - 1)

/-- Model of `str::strip_prefix`: the remainder of `s` after `pre`, when
`pre` leads `s`. -/
def stripPre (pre s : List Char) : Option (List Char) :=
  if s.take pre.length = pre then some (s.drop pre.length) else none

/-- Model of `encode_request` in `src/savant_client.rs`: a `SetLoad`
becomes a `state/set` message whose state key is
`load.{(address_hex << 16 | offset & 1023) as lowercase hex}` and whose
value is `"{level rounded}%.0"`; shifts and casts wrap as `u32`. -/
def encode_request (req : SavantRequest) : Json :=
  match req with
  | .SetLoad address load_offset level =>
    let int_address := (parse_hex_u32 address).getD 0
    let load_key := (int_address <<< 16) % 2 ^ 32 ||| (load_offset % 2 ^ 32 &&& 1023)
    let hex_key := natToHexLower load_key
    .obj [("messages".data, .arr [.obj
        [("state".data, .str ("load.".data ++ hex_key)),
         ("value".data, .str (natToDec (ratRoundAsU32 level) ++ "%.0".data))]]),
      ("URI".data, .str "state/set".data)]
  | .QueryLoad address _ =>
    .obj [("messages".data, .arr [.obj []]),
      ("URI".data, .str ("state/module/".data ++ address ++ "/get".data))]

/-- Model of `emit_if_tracked` in `src/savant_client.rs`: emit a
`LoadLevel` event only when the `(address, load_offset)` pair belongs to a
configured zone. Channel sends are modelled as the list of emitted
events. -/
def emit_if_tracked (address : List Char) (load_offset : Nat) (level : ℚ)
    (zones : List SavantZoneMapping) : List SavantEvent :=
  match zones.find? (fun z => z.address = address ∧ z.load_offset = load_offset) with
  | some _ => [.LoadLevel address load_offset level]
  | none => []

/-- Model of `parse_state_body` in `src/savant_client.rs`: decode one
message body of a Savant state message into emitted events. The
`load.{hex}` branch reverses the load-key encoding
(`address = {:03X} of key >> 16`, `offset = key & 1023`); otherwise the
module address comes from a `module.` state key or from the URI, and the
value is a comma-separated per-offset list in which negative entries mark
unused slots. -/
def parse_state_body (body : Json) (uri : List Char)
    (zones : List SavantZoneMapping) : List SavantEvent :=
  let state_str := ((body.get "state".data).bind Json.as_str).getD []
  match stripPre "load.".data state_str with
  | some hex_key =>
    match parse_hex_u32 hex_key with
    | none => []
    | some load_key =>
      let int_address := load_key >>> 16
      let load_offset := load_key &&& 1023
      let address := fmtHexUpper3 int_address
      match (body.get "value".data).bind Json.as_str with
      | none => []
      | some value_str =>
        let numeric := value_str.filter (fun c => c ≠ '%')
        let level_str := (splitOnChar '.' numeric).headD numeric
        match parse_f64 (trimStr level_str) with
        | none => []
        | some level => emit_if_tracked address load_offset level zones
  | none =>
    let addressOpt : Option (List Char) :=
      match stripPre "module.".data state_str with
      | some a => some a
      | none =>
        (stripPre "state/module/".data uri).bind
          (fun rest => (splitOnChar '/' rest).head?)
    match addressOpt with
    | none => []
    | some address =>
      match (body.get "value".data).bind Json.as_str with
      | none => []
      | some value_str =>
        ((splitOnChar ',' value_str).enum).flatMap
          (fun iv =>
            match parse_f64 (trimStr iv.2) with
            | none => []
            | some level =>
              if level < 0 then []
              else emit_if_tracked address iv.1 level zones)

/-- Per-command routing outcome of the orchestrator's translation loop:
the requests enqueued to each backend queue and the number of
no-backend warnings logged. -/
structure RouteOutcome where
  leapSends : List LeapRequest
  savantSends : List SavantRequest
  noBackendWarns : Nat

/-- Zone id carried by an RA2 command, as extracted at the top of the
orchestrator's translation loop in `src/bridge.rs`. -/
def cmdZoneId : Ra2Command → Option Nat
  | .SetOutput id _ _ => some id
  | .QueryOutput id => some id
  | .Monitoring _ _ => none

/-- Model of one iteration of the orchestrator's translation loop
(`src/bridge.rs`, `start` lines 158-204 and `run` lines 328-365):
route a command by ra2-id ownership, LEAP first, then Savant, else warn.
`leapTx`/`savantTx` say whether the corresponding request queue exists
(the backend was started); enqueueing is modelled as the send list. -/
def route_command (leap_id_map : IdMap) (savant_id_map : SavantIdMap)
    (leapTx savantTx : Bool) (cmd : Ra2Command) : RouteOutcome :=
  match cmdZoneId cmd with
  | some id =>
    if (leap_id_map.ra2_to_leap id).isSome then
      if leapTx then
        match ra2_to_leap cmd leap_id_map with
        | some req => ⟨[req], [], 0⟩
        | none => ⟨[], [], 0⟩
      else ⟨[], [], 0⟩
    else if (savant_id_map.ra2_to_savant id).isSome then
      if savantTx then
        match ra2_to_savant cmd savant_id_map with
        | some req => ⟨[], [req], 0⟩
        | none => ⟨[], [], 0⟩
      else ⟨[], [], 0⟩
    else ⟨[], [], 1⟩
  | none => ⟨[], [], 0⟩

/-- Routing as configured by `bridge::start`: the identifier maps are
built from the configuration and a backend queue exists exactly when the
backend was started (`has_leap` / `has_savant`). -/
def bridge_route (config : Config) (cmd : Ra2Command) : RouteOutcome :=
  route_command (IdMap.from_zones config.zones)
    (SavantIdMap.from_zones config.savant_zones)
    config.has_leap config.has_savant cmd

/-- Outcome of one `connect_and_run` call as seen by the reconnect loops
of `leap_client::run` and `savant_client::run`: a graceful close (`Ok`),
or an error — with a flag recording whether the attempt had connected
successfully before failing, which the source ignores. -/
inductive ConnOutcome where
  | closedGracefully
  | failed (connectedFirst : Bool)
deriving DecidableEq, Repr

/-- Model of the reconnect loops of `leap_client::run` (lines 230-246)
and `savant_client::run` (lines 41-60): starting from backoff `b`, each
failed attempt sleeps the current backoff and then doubles it, capped at
60; a graceful close breaks the loop. Returns the list of slept delays in
seconds. -/
def client_run_delays (b : Nat) : List ConnOutcome → List Nat
  | [] => []
  | .closedGracefully :: _ => []
  | .failed _ :: rest => b :: client_run_delays (min (b * 2) 60) rest

/-- Delays slept by a backend client `run` loop (initial backoff 1s). -/
def run_delays (outcomes : List ConnOutcome) : List Nat :=
  client_run_delays 1 outcomes

/-- Delay sequence the specification describes: 1s after the first
failure, doubling on each further consecutive failure, capped at 60s, and
reset to 1s by a successful connection. Modelled from the spec for
comparison with `run_delays`. -/
def spec_delays (b : Nat) : List ConnOutcome → List Nat
  | [] => []
  | .closedGracefully :: _ => []
  | .failed connectedFirst :: rest =>
    if connectedFirst then 1 :: spec_delays (min (1 * 2) 60) rest
    else b :: spec_delays (min (b * 2) 60) rest

/-- File-system operations performed by the pairing flow. -/
inductive FsOp where
  | createDirAll (path : List Char)
  | writeFile (path : List Char)
  | renameFile (src dst : List Char)
deriving DecidableEq, Repr

/-- Model of the file-system side effects of `pair` in
`src/leap_pairing.rs` (lines 150-318): create the certs directory, write
the private key immediately after generating it, and — when the pairing
exchange succeeds through button press and CSR signing — write the signed
certificate and the CA certificate. Every failure point between the key
write and the certificate write stops the flow with only the key
written. -/
def pairFileOps (certs_dir : List Char) (pairingSucceeded : Bool) : List FsOp :=
  .createDirAll certs_dir ::
    .writeFile (certs_dir ++ "/ra-bridge.key".data) ::
      (if pairingSucceeded then
        [.writeFile (certs_dir ++ "/ra-bridge.crt".data),
         .writeFile (certs_dir ++ "/ca.crt".data)]
      else [])

/-- Does an operation back up (suffix-rename) the file at `p`? -/
def isBackupOf (p : List Char) : FsOp → Bool
  | .renameFile src _ => src = p
  | _ => false

/-- Is an operation a rename at all? -/
def FsOp.isRename : FsOp → Bool
  | .renameFile _ _ => true
  | _ => false

/-- Auxiliary scan for `writesBackedUp`: `seen` holds the operations
already performed. -/
def writesBackedUpAux (seen : List FsOp) : List FsOp → Bool
  | [] => true
  | op :: rest =>
    match op with
    | .writeFile p => seen.any (isBackupOf p) && writesBackedUpAux (op :: seen) rest
    | _ => writesBackedUpAux (op :: seen) rest

/-- Whether every file write in a trace is preceded by a backup rename of
the same path — the property the specification asserts of the pairing
artifacts. -/
def writesBackedUp (ops : List FsOp) : Bool :=
  writesBackedUpAux [] ops

/-! ## Helper lemmas: digit strings -/

theorem toDecRevF_fuel_irrel :
    ∀ (n fuel1 fuel2 : Nat), n ≤ fuel1 → n ≤ fuel2 →
      toDecRevF fuel1 n = toDecRevF fuel2 n := by
  intro n
  induction n using Nat.strong_induction_on with
  | _ n ih =>
    intro fuel1 fuel2 h1 h2
    match fuel1, fuel2 with
    | 0, 0 => rfl
    | 0, fuel2 + 1 =>
      have : n = 0 := by omega
      subst this
      rfl
    | fuel1 + 1, 0 =>
      have : n = 0 := by omega
      subst this
      rfl
    | fuel1 + 1, fuel2 + 1 =>
      by_cases h0 : n = 0
      · subst h0; rfl
      · rw [toDecRevF, toDecRevF, if_neg h0, if_neg h0]
        have hlt : n / 10 < n := Nat.div_lt_self (Nat.pos_of_ne_zero h0) (by norm_num)
        rw [ih (n / 10) hlt fuel1 fuel2 (by omega) (by omega)]

theorem toDecRev_zero : toDecRev 0 = [] := rfl

theorem toDecRev_cons {n : Nat} (h : n ≠ 0) :
    toDecRev n = n % 10 :: toDecRev (n / 10) := by
  obtain ⟨m, rfl⟩ := Nat.exists_eq_succ_of_ne_zero h
  rw [toDecRev, toDecRev, toDecRevF, if_neg h]
  have hle : (m + 1) / 10 ≤ m := by omega
  rw [toDecRevF_fuel_irrel ((m + 1) / 10) m ((m + 1) / 10) hle (le_refl _)]

theorem toHexRevF_fuel_irrel :
    ∀ (n fuel1 fuel2 : Nat), n ≤ fuel1 → n ≤ fuel2 →
      toHexRevF fuel1 n = toHexRevF fuel2 n := by
  intro n
  induction n using Nat.strong_induction_on with
  | _ n ih =>
    intro fuel1 fuel2 h1 h2
    match fuel1, fuel2 with
    | 0, 0 => rfl
    | 0, fuel2 + 1 =>
      have : n = 0 := by omega
      subst this
      rfl
    | fuel1 + 1, 0 =>
      have : n = 0 := by omega
      subst this
      rfl
    | fuel1 + 1, fuel2 + 1 =>
      by_cases h0 : n = 0
      · subst h0; rfl
      · rw [toHexRevF, toHexRevF, if_neg h0, if_neg h0]
        have hlt : n / 16 < n := Nat.div_lt_self (Nat.pos_of_ne_zero h0) (by norm_num)
        rw [ih (n / 16) hlt fuel1 fuel2 (by omega) (by omega)]

theorem toHexRev_zero : toHexRev 0 = [] := rfl

theorem toHexRev_cons {n : Nat} (h : n ≠ 0) :
    toHexRev n = n % 16 :: toHexRev (n / 16) := by
  obtain ⟨m, rfl⟩ := Nat.exists_eq_succ_of_ne_zero h
  rw [toHexRev, toHexRev, toHexRevF, if_neg h]
  have hle : (m + 1) / 16 ≤ m := by omega
  rw [toHexRevF_fuel_irrel ((m + 1) / 16) m ((m + 1) / 16) hle (le_refl _)]

theorem toDecRev_digits_lt (n : Nat) : ∀ d ∈ toDecRev n, d < 10 := by
  induction n using Nat.strong_induction_on with
  | _ n ih =>
    by_cases h : n = 0
    · subst h
      intro d hd
      cases hd
    · rw [toDecRev_cons h]
      intro d hd
      rcases List.mem_cons.mp hd with h1 | h2
      · subst h1; exact Nat.mod_lt _ (by norm_num)
      · exact ih (n / 10) (Nat.div_lt_self (Nat.pos_of_ne_zero h) (by norm_num)) d h2

theorem toHexRev_digits_lt (n : Nat) : ∀ d ∈ toHexRev n, d < 16 := by
  induction n using Nat.strong_induction_on with
  | _ n ih =>
    by_cases h : n = 0
    · subst h
      intro d hd
      cases hd
    · rw [toHexRev_cons h]
      intro d hd
      rcases List.mem_cons.mp hd with h1 | h2
      · subst h1; exact Nat.mod_lt _ (by norm_num)
      · exact ih (n / 16) (Nat.div_lt_self (Nat.pos_of_ne_zero h) (by norm_num)) d h2

theorem ofDigitsRev_toDecRev (n : Nat) : ofDigitsRev 10 (toDecRev n) = n := by
  induction n using Nat.strong_induction_on with
  | _ n ih =>
    by_cases h : n = 0
    · subst h; rfl
    · rw [toDecRev_cons h, ofDigitsRev]
      rw [ih (n / 10) (Nat.div_lt_self (Nat.pos_of_ne_zero h) (by norm_num))]
      omega

theorem ofDigitsRev_toHexRev (n : Nat) : ofDigitsRev 16 (toHexRev n) = n := by
  induction n using Nat.strong_induction_on with
  | _ n ih =>
    by_cases h : n = 0
    · subst h; rfl
    · rw [toHexRev_cons h, ofDigitsRev]
      rw [ih (n / 16) (Nat.div_lt_self (Nat.pos_of_ne_zero h) (by norm_num))]
      omega

theorem toDecRev_ne_nil {n : Nat} (h : n ≠ 0) : toDecRev n ≠ [] := by
  rw [toDecRev_cons h]; simp

theorem toHexRev_ne_nil {n : Nat} (h : n ≠ 0) : toHexRev n ≠ [] := by
  rw [toHexRev_cons h]; simp

/-- Digit-string value of a reversed mapped digit list, for any base and
digit renderer/reader pair that agree below the base. -/
theorem foldl_digit_valRev (base : Nat) (dchar : Nat → Char) (dval : Char → Nat)
    (hd : ∀ d, d < base → dval (dchar d) = d) :
    ∀ ds : List Nat, (∀ d ∈ ds, d < base) →
      ((ds.map dchar).reverse).foldl (fun a c => a * base + dval c) 0 = ofDigitsRev base ds := by
  intro ds
  induction ds with
  | nil => simp [ofDigitsRev]
  | cons d ds ih =>
    intro h
    have hdlt : d < base := h d (by simp)
    simp only [List.map_cons, List.reverse_cons, List.foldl_append, List.foldl_cons,
      List.foldl_nil]
    rw [ih (fun x hx => h x (by simp [hx])), hd d hdlt]
    rw [ofDigitsRev]
    ring

theorem decDigitChar_val {d : Nat} (h : d < 10) :
    (decDigitChar d).toNat - '0'.toNat = d := by
  interval_cases d <;> decide

theorem isDecDigit_decDigitChar {d : Nat} (h : d < 10) :
    isDecDigit (decDigitChar d) = true := by
  interval_cases d <;> decide

theorem hexCharLower_val {d : Nat} (h : d < 16) :
    hexDigitVal (hexCharLower d) = some d := by
  interval_cases d <;> decide

theorem hexCharUpper_val {d : Nat} (h : d < 16) :
    hexDigitVal (hexCharUpper d) = some d := by
  interval_cases d <;> decide

theorem digitsVal_natToDec (n : Nat) : digitsVal (natToDec n) = n := by
  rw [natToDec]
  split
  · rename_i h; subst h; decide
  · rename_i h
    have := foldl_digit_valRev 10 decDigitChar (fun c => c.toNat - '0'.toNat)
      (fun d hd => decDigitChar_val hd) (toDecRev n) (toDecRev_digits_lt n)
    rw [digitsVal]
    rw [this, ofDigitsRev_toDecRev]

theorem natToDec_all_digits (n : Nat) : (natToDec n).all isDecDigit = true := by
  rw [natToDec]
  split
  · decide
  · rw [List.all_eq_true]
    intro c hc
    rw [List.mem_reverse, List.mem_map] at hc
    obtain ⟨d, hd, rfl⟩ := hc
    exact isDecDigit_decDigitChar (toDecRev_digits_lt n d hd)

theorem natToDec_ne_nil (n : Nat) : natToDec n ≠ [] := by
  rw [natToDec]
  split
  · simp
  · rename_i h
    simp [toDecRev_ne_nil h]

theorem isDecDigit_ne_plus {c : Char} (h : isDecDigit c = true) : c ≠ '+' := by
  intro hc; subst hc; exact absurd h (by decide)

theorem parse_u32_natToDec {n : Nat} (h : n < 2 ^ 32) :
    parse_u32 (natToDec n) = some n := by
  obtain ⟨c, cs, hccs⟩ := List.exists_cons_of_ne_nil (natToDec_ne_nil n)
  have hall : (natToDec n).all isDecDigit = true := natToDec_all_digits n
  have hc : isDecDigit c = true := by
    rw [hccs, List.all_cons] at hall
    exact ((Bool.and_eq_true _ _).mp hall).1
  rw [parse_u32.eq_def, hccs]
  simp only [if_neg (isDecDigit_ne_plus hc)]
  rw [← hccs]
  rw [if_pos ⟨natToDec_ne_nil n, hall⟩]
  rw [digitsVal_natToDec]
  exact if_pos h

theorem hexVal_natToHexLower (n : Nat) : hexVal (natToHexLower n) = n := by
  rw [natToHexLower]
  split
  · rename_i h; subst h; decide
  · rw [hexVal]
    rw [foldl_digit_valRev 16 hexCharLower (fun c => (hexDigitVal c).getD 0)
      (fun d hd => by simp only []; rw [hexCharLower_val hd]; rfl)
      (toHexRev n) (toHexRev_digits_lt n)]
    exact ofDigitsRev_toHexRev n

theorem natToHexLower_all_hex (n : Nat) :
    (natToHexLower n).all (fun c => (hexDigitVal c).isSome) = true := by
  rw [natToHexLower]
  split
  · decide
  · rw [List.all_eq_true]
    intro c hc
    rw [List.mem_reverse, List.mem_map] at hc
    obtain ⟨d, hd, rfl⟩ := hc
    rw [hexCharLower_val (toHexRev_digits_lt n d hd)]
    rfl

theorem natToHexLower_ne_nil (n : Nat) : natToHexLower n ≠ [] := by
  rw [natToHexLower]
  split
  · simp
  · rename_i h
    simp [toHexRev_ne_nil h]

theorem hexDigit_ne_plus {c : Char} (h : (hexDigitVal c).isSome = true) : c ≠ '+' := by
  intro hc; subst hc; exact absurd h (by decide)

theorem parse_hex_u32_natToHexLower {n : Nat} (h : n < 2 ^ 32) :
    parse_hex_u32 (natToHexLower n) = some n := by
  obtain ⟨c, cs, hccs⟩ := List.exists_cons_of_ne_nil (natToHexLower_ne_nil n)
  have hall := natToHexLower_all_hex n
  have hc : (hexDigitVal c).isSome = true := by
    rw [hccs, List.all_cons] at hall
    exact ((Bool.and_eq_true _ _).mp hall).1
  rw [parse_hex_u32.eq_def, hccs]
  simp only [if_neg (hexDigit_ne_plus hc)]
  rw [← hccs]
  rw [if_pos ⟨natToHexLower_ne_nil n, hall⟩]
  rw [hexVal_natToHexLower]
  exact if_pos h

theorem hexVal_replicate_zero_append (k : Nat) (s : List Char) :
    hexVal (List.replicate k '0' ++ s) = hexVal s := by
  induction k with
  | zero => simp
  | succ k ih =>
    rw [List.replicate_succ, List.cons_append]
    rw [hexVal] at *
    simpa using ih

theorem natToHexUpper_all_hex (n : Nat) :
    (natToHexUpper n).all (fun c => (hexDigitVal c).isSome) = true := by
  rw [natToHexUpper]
  split
  · decide
  · rw [List.all_eq_true]
    intro c hc
    rw [List.mem_reverse, List.mem_map] at hc
    obtain ⟨d, hd, rfl⟩ := hc
    rw [hexCharUpper_val (toHexRev_digits_lt n d hd)]
    rfl

theorem hexVal_natToHexUpper (n : Nat) : hexVal (natToHexUpper n) = n := by
  rw [natToHexUpper]
  split
  · rename_i h; subst h; decide
  · rw [hexVal]
    rw [foldl_digit_valRev 16 hexCharUpper (fun c => (hexDigitVal c).getD 0)
      (fun d hd => by simp only []; rw [hexCharUpper_val hd]; rfl)
      (toHexRev n) (toHexRev_digits_lt n)]
    exact ofDigitsRev_toHexRev n

theorem parse_hex_u32_fmtHexUpper3 {n : Nat} (h : n < 2 ^ 32) :
    parse_hex_u32 (fmtHexUpper3 n) = some n := by
  rw [fmtHexUpper3]
  set s := natToHexUpper n with hs
  have hne : natToHexUpper n ≠ [] := by
    rw [natToHexUpper]
    split
    · simp
    · rename_i h0
      simp [toHexRev_ne_nil h0]
  have hall : (List.replicate (3 - s.length) '0' ++ s).all
      (fun c => (hexDigitVal c).isSome) = true := by
    rw [List.all_append]
    refine (Bool.and_eq_true _ _).mpr ⟨?_, natToHexUpper_all_hex n⟩
    rw [List.all_eq_true]
    intro c hc
    rw [List.eq_of_mem_replicate hc]
    rfl
  have hne2 : List.replicate (3 - s.length) '0' ++ s ≠ [] := by
    intro hcontra
    exact hne (List.append_eq_nil.mp hcontra).2
  obtain ⟨c, cs, hccs⟩ := List.exists_cons_of_ne_nil hne2
  have hc : (hexDigitVal c).isSome = true := by
    rw [hccs, List.all_cons] at hall
    exact ((Bool.and_eq_true _ _).mp hall).1
  rw [parse_hex_u32.eq_def, hccs]
  simp only [if_neg (hexDigit_ne_plus hc)]
  rw [← hccs]
  rw [if_pos ⟨hne2, hall⟩]
  rw [hexVal_replicate_zero_append, hexVal_natToHexUpper]
  exact if_pos h

/-! ## Helper lemmas: trim, split, and decimal parsing -/

theorem takeWhile_of_all {p : Char → Bool} {l : List Char} (h : l.all p = true) :
    l.takeWhile p = l := by
  induction l with
  | nil => rfl
  | cons c cs ih =>
    rw [List.all_cons] at h
    obtain ⟨h1, h2⟩ := (Bool.and_eq_true _ _).mp h
    rw [List.takeWhile_cons, h1]
    simp [ih h2]

theorem dropWhile_of_all {p : Char → Bool} {l : List Char} (h : l.all p = true) :
    l.dropWhile p = [] := by
  induction l with
  | nil => rfl
  | cons c cs ih =>
    rw [List.all_cons] at h
    obtain ⟨h1, h2⟩ := (Bool.and_eq_true _ _).mp h
    rw [List.dropWhile_cons, h1]
    simpa using ih h2

theorem dropWhile_of_head_false {p : Char → Bool} {c : Char} {cs : List Char}
    (h : p c = false) : (c :: cs).dropWhile p = c :: cs := by
  rw [List.dropWhile_cons, h]
  simp

theorem trimStr_of_no_ws {l : List Char}
    (h : l.all (fun c => !rustIsWhitespace c) = true) : trimStr l = l := by
  rw [trimStr]
  have h1 : l.dropWhile rustIsWhitespace = l := by
    rcases l with _ | ⟨c, cs⟩
    · rfl
    · rw [List.all_cons] at h
      obtain ⟨hc, _⟩ := (Bool.and_eq_true _ _).mp h
      exact dropWhile_of_head_false (by simpa using hc)
  rw [h1]
  have h2 : l.reverse.dropWhile rustIsWhitespace = l.reverse := by
    rcases hr : l.reverse with _ | ⟨c, cs⟩
    · rfl
    · have hcmem : c ∈ l := by
        rw [← List.mem_reverse, hr]; simp
      rw [List.all_eq_true] at h
      exact dropWhile_of_head_false (by simpa using h c hcmem)
  rw [h2, List.reverse_reverse]

theorem digit_not_ws {c : Char} (h : isDecDigit c = true) :
    rustIsWhitespace c = false := by
  rw [isDecDigit] at h
  obtain ⟨h1, h2⟩ := (Bool.and_eq_true _ _).mp h
  have h1' : '0'.toNat ≤ c.toNat := of_decide_eq_true h1
  have h2' : c.toNat ≤ '9'.toNat := of_decide_eq_true h2
  rw [rustIsWhitespace]
  have h0 : '0'.toNat = 48 := rfl
  have h9 : '9'.toNat = 57 := rfl
  rw [h0] at h1'
  rw [h9] at h2'
  set m := c.toNat with hm
  interval_cases m <;> decide

theorem natToDec_no_ws (n : Nat) :
    (natToDec n).all (fun c => !rustIsWhitespace c) = true := by
  have h := natToDec_all_digits n
  rw [List.all_eq_true] at *
  intro c hc
  simpa using digit_not_ws (h c hc)

theorem trimStr_natToDec (n : Nat) : trimStr (natToDec n) = natToDec n :=
  trimStr_of_no_ws (natToDec_no_ws n)

/-- Parsing a pure decimal digit string as an `f64` gives its value. -/
theorem parse_f64_natToDec (n : Nat) : parse_f64 (natToDec n) = some (n : ℚ) := by
  obtain ⟨c, cs, hccs⟩ := List.exists_cons_of_ne_nil (natToDec_ne_nil n)
  have hall := natToDec_all_digits n
  have hc : isDecDigit c = true := by
    rw [hccs, List.all_cons] at hall
    exact ((Bool.and_eq_true _ _).mp hall).1
  have hcminus : c ≠ '-' := by
    intro h; subst h; exact absurd hc (by decide)
  have hcplus : c ≠ '+' := isDecDigit_ne_plus hc
  rw [parse_f64.eq_def, hccs]
  simp only [if_neg hcminus, if_neg hcplus]
  rw [← hccs]
  rw [takeWhile_of_all (natToDec_all_digits n), dropWhile_of_all (natToDec_all_digits n)]
  rw [if_neg (by simp [natToDec_ne_nil n])]
  simp only [digitsVal_natToDec]
  norm_num [digitsVal]

/-- Splitting at a separator-free field followed by a separator. -/
theorem splitOnChar_append {sep : Char} {a : List Char}
    (ha : a.all (fun c => c ≠ sep) = true) (b : List Char) :
    splitOnChar sep (a ++ sep :: b) = a :: splitOnChar sep b := by
  induction a with
  | nil => simp [splitOnChar]
  | cons c cs ih =>
    rw [List.all_cons] at ha
    obtain ⟨h1, h2⟩ := (Bool.and_eq_true _ _).mp ha
    rw [List.cons_append, splitOnChar]
    rw [if_neg (by simpa using h1)]
    rw [ih h2]

/-- Splitting a separator-free string yields a single field. -/
theorem splitOnChar_of_no_sep {sep : Char} {a : List Char}
    (ha : a.all (fun c => c ≠ sep) = true) :
    splitOnChar sep a = [a] := by
  induction a with
  | nil => rfl
  | cons c cs ih =>
    rw [List.all_cons] at ha
    obtain ⟨h1, h2⟩ := (Bool.and_eq_true _ _).mp ha
    rw [splitOnChar]
    rw [if_neg (by simpa using h1)]
    rw [ih h2]

theorem natToDec_no_comma (n : Nat) :
    (natToDec n).all (fun c => c ≠ ',') = true := by
  have h := natToDec_all_digits n
  rw [List.all_eq_true] at *
  intro c hc
  have hd := h c hc
  simp only [decide_eq_true_eq]
  intro hcomma
  subst hcomma
  exact absurd hd (by decide)

/-! ## Helper lemmas: map construction and lookup -/

theorem foldl_hmInsert_lookup {α β γ : Type} [DecidableEq α]
    (k : γ → α) (v : γ → β) (zs : List γ) (m0 : α → Option β) (x : α) :
    (zs.foldl (fun m z => hmInsert m (k z) (v z)) m0) x =
      (match zs.reverse.find? (fun z => decide (k z = x)) with
        | some z => some (v z)
        | none => m0 x) := by
  induction zs generalizing m0 with
  | nil => simp
  | cons z zs ih =>
    rw [List.foldl_cons, ih]
    rw [List.reverse_cons, List.find?_append]
    cases hf : zs.reverse.find? (fun z => decide (k z = x)) with
    | some w => simp [hf]
    | none =>
      simp only [hf, Option.none_orElse]
      by_cases hkz : k z = x
      · simp [List.find?, hkz, hmInsert]
      · simp [List.find?, hkz, hmInsert]
        intro h
        exact absurd h.symm hkz

theorem find?_eq_of_nodup_map {α γ : Type} [DecidableEq α] (k : γ → α)
    (l : List γ) (h : (l.map k).Nodup) {z : γ} (hz : z ∈ l) {x : α} (hkz : k z = x) :
    l.find? (fun y => decide (k y = x)) = some z := by
  induction l with
  | nil => cases hz
  | cons w l ih =>
    rw [List.map_cons, List.nodup_cons] at h
    rcases List.mem_cons.mp hz with rfl | hz'
    · simp [List.find?, hkz]
    · have hkw : ¬(k w = x) := by
        intro he
        apply h.1
        rw [he, ← hkz]
        exact List.mem_map_of_mem k hz'
      rw [List.find?]
      simp only [decide_eq_true_eq, hkw, decide_False]
      exact ih h.2 hz'

/-- Lookup in a map built by repeated overwriting insertion, when the
keys are distinct: a binding is found exactly when it is in the input. -/
theorem foldl_lookup_iff {α β γ : Type} [DecidableEq α] [DecidableEq β]
    (k : γ → α) (v : γ → β) (zs : List γ) (hn : (zs.map k).Nodup) (x : α) (y : β) :
    (zs.foldl (fun m z => hmInsert m (k z) (v z)) (fun _ => none)) x = some y ↔
      ∃ z ∈ zs, k z = x ∧ v z = y := by
  rw [foldl_hmInsert_lookup]
  constructor
  · intro h
    cases hf : zs.reverse.find? (fun z => decide (k z = x)) with
    | none => rw [hf] at h; cases h
    | some w =>
      rw [hf] at h
      have hw := List.find?_some hf
      have hmem := List.mem_of_find?_eq_some hf
      refine ⟨w, List.mem_reverse.mp hmem, of_decide_eq_true hw, ?_⟩
      injection h
  · rintro ⟨z, hz, hkz, hvz⟩
    have hnrev : (zs.reverse.map k).Nodup := by
      rw [List.map_reverse]
      exact List.nodup_reverse.mpr hn
    rw [find?_eq_of_nodup_map k zs.reverse hnrev (List.mem_reverse.mpr hz) hkz]
    simp [hvz]

/-- Lookup in a map built by repeated insertion is populated exactly at
the inserted keys, regardless of duplicates. -/
theorem foldl_lookup_isSome {α β γ : Type} [DecidableEq α]
    (k : γ → α) (v : γ → β) (zs : List γ) (x : α) :
    ((zs.foldl (fun m z => hmInsert m (k z) (v z)) (fun _ => none)) x).isSome = true ↔
      ∃ z ∈ zs, k z = x := by
  rw [foldl_hmInsert_lookup]
  cases hf : zs.reverse.find? (fun z => decide (k z = x)) with
  | none =>
    simp only [Option.isSome_none]
    constructor
    · intro h; cases h
    · rintro ⟨z, hz, hkz⟩
      have hex : ∃ w ∈ zs.reverse, (fun y => decide (k y = x)) w = true :=
        ⟨z, List.mem_reverse.mpr hz, decide_eq_true hkz⟩
      rw [← List.find?_isSome] at hex
      rw [hf] at hex
      cases hex
  | some w =>
    simp only [Option.isSome_some, true_iff]
    have hp := List.find?_some hf
    exact ⟨w, List.mem_reverse.mp (List.mem_of_find?_eq_some hf), of_decide_eq_true hp⟩

/-! ## Helper lemmas: configuration validation -/

theorem validateLeapZones_ok_mem {seen : List Nat} {zs : List ZoneMapping} {s' : List Nat}
    (h : validateLeapZones seen zs = .ok s') :
    ∀ x, x ∈ s' ↔ x ∈ seen ∨ x ∈ zs.map ZoneMapping.ra2_id := by
  induction zs generalizing seen with
  | nil =>
    rw [validateLeapZones] at h
    injection h with h
    subst h
    simp
  | cons z zs ih =>
    rw [validateLeapZones] at h
    split at h
    · cases h
    · intro x
      rw [ih h x]
      simp only [List.mem_cons, List.map_cons]
      tauto

theorem validateLeapZones_ok_iff (seen : List Nat) (zs : List ZoneMapping) :
    (∃ s', validateLeapZones seen zs = .ok s') ↔
      (zs.map ZoneMapping.ra2_id).Nodup ∧ ∀ z ∈ zs, z.ra2_id ∉ seen := by
  induction zs generalizing seen with
  | nil => simp [validateLeapZones]
  | cons z zs ih =>
    rw [validateLeapZones]
    split
    · rename_i hmem
      constructor
      · rintro ⟨s', h⟩; cases h
      · rintro ⟨_, hall⟩
        exact absurd hmem (hall z (by simp))
    · rename_i hmem
      rw [ih]
      constructor
      · rintro ⟨hnd, hall⟩
        refine ⟨?_, ?_⟩
        · rw [List.map_cons, List.nodup_cons]
          refine ⟨?_, hnd⟩
          intro hzin
          rw [List.mem_map] at hzin
          obtain ⟨w, hw, hwid⟩ := hzin
          exact (hall w hw) (by simp [hwid])
        · intro w hw
          rcases List.mem_cons.mp hw with rfl | hw'
          · exact hmem
          · intro hws
            exact (hall w hw') (by simp [hws])
      · rintro ⟨hnd, hall⟩
        rw [List.map_cons, List.nodup_cons] at hnd
        refine ⟨hnd.2, ?_⟩
        intro w hw
        simp only [List.mem_cons]
        rintro (hws | hws)
        · exact hnd.1 (hws ▸ List.mem_map_of_mem ZoneMapping.ra2_id hw)
        · exact (hall w (by simp [hw])) hws

theorem validateSavantZones_ok_iff (seen : List Nat) (zs : List SavantZoneMapping) :
    validateSavantZones seen zs = .ok () ↔
      (zs.map SavantZoneMapping.ra2_id).Nodup ∧ ∀ z ∈ zs, z.ra2_id ∉ seen := by
  induction zs generalizing seen with
  | nil => simp [validateSavantZones]
  | cons z zs ih =>
    rw [validateSavantZones]
    split
    · rename_i hmem
      constructor
      · rintro h; cases h
      · rintro ⟨_, hall⟩
        exact absurd hmem (hall z (by simp))
    · rename_i hmem
      rw [ih]
      constructor
      · rintro ⟨hnd, hall⟩
        refine ⟨?_, ?_⟩
        · rw [List.map_cons, List.nodup_cons]
          refine ⟨?_, hnd⟩
          intro hzin
          rw [List.mem_map] at hzin
          obtain ⟨w, hw, hwid⟩ := hzin
          exact (hall w hw) (by simp [hwid])
        · intro w hw
          rcases List.mem_cons.mp hw with rfl | hw'
          · exact hmem
          · intro hws
            exact (hall w hw') (by simp [hws])
      · rintro ⟨hnd, hall⟩
        rw [List.map_cons, List.nodup_cons] at hnd
        refine ⟨hnd.2, ?_⟩
        intro w hw
        simp only [List.mem_cons]
        rintro (hws | hws)
        · exact hnd.1 (hws ▸ List.mem_map_of_mem SavantZoneMapping.ra2_id hw)
        · exact (hall w (by simp [hw])) hws

theorem validateLeapZones_error_shape {seen : List Nat} {zs : List ZoneMapping}
    {msg : List Char} (h : validateLeapZones seen zs = .error msg) :
    ∃ z ∈ zs, msg = dupLeapMsg z.ra2_id := by
  induction zs generalizing seen with
  | nil => cases h
  | cons z zs ih =>
    rw [validateLeapZones] at h
    split at h
    · injection h with h
      exact ⟨z, by simp, h.symm⟩
    · obtain ⟨w, hw, hmsg⟩ := ih h
      exact ⟨w, by simp [hw], hmsg⟩

theorem validateSavantZones_error_shape {seen : List Nat} {zs : List SavantZoneMapping}
    {msg : List Char} (h : validateSavantZones seen zs = .error msg) :
    ∃ z ∈ zs, msg = dupSavantMsg z.ra2_id z.name := by
  induction zs generalizing seen with
  | nil => cases h
  | cons z zs ih =>
    rw [validateSavantZones] at h
    split at h
    · injection h with h
      exact ⟨z, by simp, h.symm⟩
    · obtain ⟨w, hw, hmsg⟩ := ih h
      exact ⟨w, by simp [hw], hmsg⟩

/-- When the savant list has distinct ids and some id is already in
`seen`, the savant pass fails naming a zone whose id is in `seen`. -/
theorem validateSavantZones_conflict {seen : List Nat} {zs : List SavantZoneMapping}
    (hnodup : (zs.map SavantZoneMapping.ra2_id).Nodup)
    (hex : ∃ z ∈ zs, z.ra2_id ∈ seen) :
    ∃ z ∈ zs, z.ra2_id ∈ seen ∧
      validateSavantZones seen zs = .error (dupSavantMsg z.ra2_id z.name) := by
  induction zs generalizing seen with
  | nil => obtain ⟨z, hz, _⟩ := hex; cases hz
  | cons w zs ih =>
    rw [List.map_cons, List.nodup_cons] at hnodup
    by_cases hw : w.ra2_id ∈ seen
    · refine ⟨w, by simp, hw, ?_⟩
      rw [validateSavantZones, if_pos hw]
    · obtain ⟨z, hz, hzseen⟩ := hex
      have hzzs : z ∈ zs := by
        rcases List.mem_cons.mp hz with rfl | h
        · exact absurd hzseen hw
        · exact h
      obtain ⟨z', hz', hz'seen, hrun⟩ := @ih (w.ra2_id :: seen) hnodup.2
        ⟨z, hzzs, List.mem_cons_of_mem _ hzseen⟩
      have hz'orig : z'.ra2_id ∈ seen := by
        rcases List.mem_cons.mp hz'seen with heq | h
        · refine absurd ?_ hnodup.1
          rw [← heq]
          exact List.mem_map_of_mem SavantZoneMapping.ra2_id hz'
        · exact h
      refine ⟨z', by simp [hz'], hz'orig, ?_⟩
      rw [validateSavantZones, if_neg hw]
      exact hrun

/-! ## Claim theorems -/

/-- C9: for an `IdMap` (or `SavantIdMap`) built from a zone list with no
duplicate zone ids and no duplicate backend keys, the two lookup
directions are mutually inverse: `forward id = some key` holds exactly
when `reverse key = some id`, for every id and key. -/
theorem c9_idmap_lookups_mutually_inverse
    (zs : List ZoneMapping) (szs : List SavantZoneMapping)
    (h1 : (zs.map ZoneMapping.ra2_id).Nodup)
    (h2 : (zs.map ZoneMapping.leap_href).Nodup)
    (h3 : (szs.map SavantZoneMapping.ra2_id).Nodup)
    (h4 : (szs.map (fun z => (z.address, z.load_offset))).Nodup)
    (id : Nat) (href : List Char) (key : List Char × Nat) :
    ((IdMap.from_zones zs).ra2_to_leap id = some href ↔
      (IdMap.from_zones zs).leap_to_ra2 href = some id)
    ∧ ((SavantIdMap.from_zones szs).ra2_to_savant id = some key ↔
      (SavantIdMap.from_zones szs).savant_to_ra2 key = some id) := by
  constructor
  · rw [IdMap.from_zones]
    rw [foldl_lookup_iff ZoneMapping.ra2_id ZoneMapping.leap_href zs h1 id href]
    rw [foldl_lookup_iff ZoneMapping.leap_href ZoneMapping.ra2_id zs h2 href id]
    constructor
    · rintro ⟨z, hz, ha, hb⟩; exact ⟨z, hz, hb, ha⟩
    · rintro ⟨z, hz, ha, hb⟩; exact ⟨z, hz, hb, ha⟩
  · rw [SavantIdMap.from_zones]
    rw [foldl_lookup_iff SavantZoneMapping.ra2_id (fun z => (z.address, z.load_offset))
      szs h3 id key]
    rw [foldl_lookup_iff (fun z => (z.address, z.load_offset)) SavantZoneMapping.ra2_id
      szs h4 key id]
    constructor
    · rintro ⟨z, hz, ha, hb⟩; exact ⟨z, hz, hb, ha⟩
    · rintro ⟨z, hz, ha, hb⟩; exact ⟨z, hz, hb, ha⟩

/-- Witness for C9 at a concrete two-zone configuration. -/
theorem c9_idmap_lookups_mutually_inverse_witness :
    ((IdMap.from_zones [⟨1, "/zone/5".data, "Kitchen".data⟩,
        ⟨2, "/zone/8".data, "Living".data⟩]).ra2_to_leap 1 = some "/zone/5".data ↔
      (IdMap.from_zones [⟨1, "/zone/5".data, "Kitchen".data⟩,
        ⟨2, "/zone/8".data, "Living".data⟩]).leap_to_ra2 "/zone/5".data = some 1)
    ∧ ((SavantIdMap.from_zones [⟨200, "001".data, 0, "K".data, "R".data⟩]).ra2_to_savant 200 =
        some ("001".data, 0) ↔
      (SavantIdMap.from_zones [⟨200, "001".data, 0, "K".data, "R".data⟩]).savant_to_ra2
        ("001".data, 0) = some 200) :=
  ⟨(c9_idmap_lookups_mutually_inverse
      [⟨1, "/zone/5".data, "Kitchen".data⟩, ⟨2, "/zone/8".data, "Living".data⟩]
      [⟨200, "001".data, 0, "K".data, "R".data⟩]
      (by decide) (by decide) (by decide) (by decide) 1 "/zone/5".data ("001".data, 0)).1,
   (c9_idmap_lookups_mutually_inverse
      [⟨1, "/zone/5".data, "Kitchen".data⟩, ⟨2, "/zone/8".data, "Living".data⟩]
      [⟨200, "001".data, 0, "K".data, "R".data⟩]
      (by decide) (by decide) (by decide) (by decide) 200 "/zone/5".data ("001".data, 0)).2⟩

/-- C6: the translators return a request exactly for `SetOutput` and
`QueryOutput` commands whose zone id is in the respective identifier map;
`Monitoring` never translates; and a lookup miss — unknown zone id
forward, or unknown backend key on the reverse event path — yields `none`
rather than an error or a panic. -/
theorem c6_translators_none_on_miss (lm : IdMap) (sm : SavantIdMap) :
    (∀ cmd, (ra2_to_leap cmd lm).isSome = true ↔
      ∃ id, cmdZoneId cmd = some id ∧ (lm.ra2_to_leap id).isSome = true)
    ∧ (∀ cmd, (ra2_to_savant cmd sm).isSome = true ↔
      ∃ id, cmdZoneId cmd = some id ∧ (sm.ra2_to_savant id).isSome = true)
    ∧ (∀ mt en, ra2_to_leap (.Monitoring mt en) lm = none
        ∧ ra2_to_savant (.Monitoring mt en) sm = none)
    ∧ (∀ a o lvl, sm.savant_to_ra2 (a, o) = none →
        savant_to_ra2 (.LoadLevel a o lvl) sm = none)
    ∧ (∀ ev zone_status href, ev.body.get "ZoneStatus".data = some zone_status →
        leapEventZoneHref zone_status ev.header.url = some href →
        lm.leap_to_ra2 href = none → leap_to_ra2 ev lm = none) := by
  refine ⟨?_, ?_, ?_, ?_, ?_⟩
  · intro cmd
    rcases cmd with ⟨id, level, fade⟩ | ⟨id⟩ | ⟨mt, en⟩
    · cases h : lm.ra2_to_leap id <;> simp [ra2_to_leap, cmdZoneId, h]
    · cases h : lm.ra2_to_leap id <;> simp [ra2_to_leap, cmdZoneId, h]
    · simp [ra2_to_leap, cmdZoneId]
  · intro cmd
    rcases cmd with ⟨id, level, fade⟩ | ⟨id⟩ | ⟨mt, en⟩
    · cases h : sm.ra2_to_savant id with
      | none => simp [ra2_to_savant, cmdZoneId, h]
      | some p => cases p; simp [ra2_to_savant, cmdZoneId, h]
    · cases h : sm.ra2_to_savant id with
      | none => simp [ra2_to_savant, cmdZoneId, h]
      | some p => cases p; simp [ra2_to_savant, cmdZoneId, h]
    · simp [ra2_to_savant, cmdZoneId]
  · intro mt en
    exact ⟨rfl, rfl⟩
  · intro a o lvl h
    simp [savant_to_ra2, h]
  · intro ev zone_status href h1 h2 h3
    rw [leap_to_ra2.eq_def, h1]
    simp only []
    cases hl : (zone_status.get "Level".data).bind Json.as_f64 with
    | none => rfl
    | some level => simp [h2, h3]

/-- Witness for C6 on an empty LEAP map and empty Savant map: every
translation and reverse translation misses. -/
theorem c6_translators_none_on_miss_witness :
    ((ra2_to_leap (.SetOutput 7 50 none) (IdMap.from_zones [])).isSome = true ↔
      ∃ id, cmdZoneId (.SetOutput 7 50 none) = some id ∧
        ((IdMap.from_zones []).ra2_to_leap id).isSome = true)
    ∧ ra2_to_leap (.Monitoring 5 true) (IdMap.from_zones []) = none
    ∧ savant_to_ra2 (.LoadLevel "099".data 0 100) (SavantIdMap.from_zones []) = none
    ∧ leap_to_ra2
        ⟨"ReadResponse".data, ⟨"/zone/5/status".data, none, []⟩,
          .obj [("ZoneStatus".data,
            .obj [("Level".data, .num 100),
                  ("Zone".data, .obj [("href".data, .str "/zone/5".data)])])]⟩
        (IdMap.from_zones []) = none := by
  refine ⟨?_, ?_, ?_, ?_⟩
  · exact (c6_translators_none_on_miss (IdMap.from_zones [])
      (SavantIdMap.from_zones [])).1 (.SetOutput 7 50 none)
  · exact ((c6_translators_none_on_miss (IdMap.from_zones [])
      (SavantIdMap.from_zones [])).2.2.1 5 true).1
  · exact (c6_translators_none_on_miss (IdMap.from_zones [])
      (SavantIdMap.from_zones [])).2.2.2.1 "099".data 0 100 rfl
  · exact (c6_translators_none_on_miss (IdMap.from_zones [])
      (SavantIdMap.from_zones [])).2.2.2.2
      ⟨"ReadResponse".data, ⟨"/zone/5/status".data, none, []⟩,
        .obj [("ZoneStatus".data,
          .obj [("Level".data, .num 100),
                ("Zone".data, .obj [("href".data, .str "/zone/5".data)])])]⟩
      (.obj [("Level".data, .num 100),
             ("Zone".data, .obj [("href".data, .str "/zone/5".data)])])
      "/zone/5".data rfl rfl rfl

theorem ra2_to_leap_isSome_of_owned {cmd : Ra2Command} {id : Nat}
    (hid : cmdZoneId cmd = some id) {lm : IdMap} {href : List Char}
    (h : lm.ra2_to_leap id = some href) : (ra2_to_leap cmd lm).isSome = true := by
  rcases cmd with ⟨i, level, fade⟩ | ⟨i⟩ | ⟨mt, en⟩
  · injection hid with hid
    subst hid
    simp [ra2_to_leap, h]
  · injection hid with hid
    subst hid
    simp [ra2_to_leap, h]
  · cases hid

theorem ra2_to_savant_isSome_of_owned {cmd : Ra2Command} {id : Nat}
    (hid : cmdZoneId cmd = some id) {sm : SavantIdMap} {key : List Char × Nat}
    (h : sm.ra2_to_savant id = some key) : (ra2_to_savant cmd sm).isSome = true := by
  obtain ⟨a, o⟩ := key
  rcases cmd with ⟨i, level, fade⟩ | ⟨i⟩ | ⟨mt, en⟩
  · injection hid with hid
    subst hid
    simp [ra2_to_savant, h]
  · injection hid with hid
    subst hid
    simp [ra2_to_savant, h]
  · cases hid

theorem has_leap_of_lookup {config : Config} {id : Nat} {href : List Char}
    (h : (IdMap.from_zones config.zones).ra2_to_leap id = some href) :
    config.has_leap = true := by
  cases hz : config.zones with
  | nil =>
    rw [hz] at h
    cases h
  | cons z zs => simp [Config.has_leap, hz]

theorem savant_zones_ne_nil_of_lookup {config : Config} {id : Nat} {key : List Char × Nat}
    (h : (SavantIdMap.from_zones config.savant_zones).ra2_to_savant id = some key) :
    config.savant_zones.isEmpty = false := by
  cases hz : config.savant_zones with
  | nil =>
    rw [hz] at h
    cases h
  | cons z zs => simp [hz]

/-- C1: the orchestrator's routing loop routes a command carrying a zone
id exclusively by ownership: a LEAP-owned id enqueues the translated
request only to the LEAP queue; otherwise a Savant-owned id (with Savant
configured) enqueues only to the Savant queue; an id owned by neither
produces no backend request and exactly one warning — a command is never
sent to a backend that does not own its zone id. -/
theorem c1_routing_by_ownership (config : Config) (cmd : Ra2Command) (id : Nat)
    (hid : cmdZoneId cmd = some id) :
    ((∃ href, (IdMap.from_zones config.zones).ra2_to_leap id = some href) →
      ∃ req, ra2_to_leap cmd (IdMap.from_zones config.zones) = some req ∧
        bridge_route config cmd = ⟨[req], [], 0⟩)
    ∧ ((IdMap.from_zones config.zones).ra2_to_leap id = none →
      config.savant.isSome = true →
      (∃ key, (SavantIdMap.from_zones config.savant_zones).ra2_to_savant id = some key) →
      ∃ req, ra2_to_savant cmd (SavantIdMap.from_zones config.savant_zones) = some req ∧
        bridge_route config cmd = ⟨[], [req], 0⟩)
    ∧ ((IdMap.from_zones config.zones).ra2_to_leap id = none →
      (SavantIdMap.from_zones config.savant_zones).ra2_to_savant id = none →
      bridge_route config cmd = ⟨[], [], 1⟩)
    ∧ ((bridge_route config cmd).leapSends ≠ [] →
      ((IdMap.from_zones config.zones).ra2_to_leap id).isSome = true)
    ∧ ((bridge_route config cmd).savantSends ≠ [] →
      (IdMap.from_zones config.zones).ra2_to_leap id = none ∧
        ((SavantIdMap.from_zones config.savant_zones).ra2_to_savant id).isSome = true) := by
  refine ⟨?_, ?_, ?_, ?_, ?_⟩
  · rintro ⟨href, hlookup⟩
    obtain ⟨req, hreq⟩ := Option.isSome_iff_exists.mp
      (ra2_to_leap_isSome_of_owned hid hlookup)
    refine ⟨req, hreq, ?_⟩
    rw [bridge_route, route_command.eq_def, hid]
    simp [hlookup, has_leap_of_lookup hlookup, hreq]
  · rintro hlnone hsome ⟨key, hkey⟩
    obtain ⟨req, hreq⟩ := Option.isSome_iff_exists.mp
      (ra2_to_savant_isSome_of_owned hid hkey)
    refine ⟨req, hreq, ?_⟩
    rw [bridge_route, route_command.eq_def, hid]
    have hsav : config.has_savant = true := by
      rw [Config.has_savant, hsome, savant_zones_ne_nil_of_lookup hkey]
      rfl
    simp [hlnone, hkey, hsav, hreq]
  · intro hlnone hsnone
    rw [bridge_route, route_command.eq_def, hid]
    simp [hlnone, hsnone]
  · intro hne
    by_cases hl : ((IdMap.from_zones config.zones).ra2_to_leap id).isSome = true
    · exact hl
    exfalso
    apply hne
    have hl' := Option.not_isSome_iff_eq_none.mp hl
    rw [bridge_route, route_command.eq_def, hid]
    simp only [hl', Option.isSome_none, Bool.false_eq_true, if_false]
    split
    · split
      · split <;> rfl
      · rfl
    · rfl
  · intro hne
    rw [bridge_route, route_command.eq_def, hid] at hne
    by_cases hl : ((IdMap.from_zones config.zones).ra2_to_leap id).isSome = true
    · exfalso
      apply hne
      simp only [hl, if_true]
      split
      · split <;> rfl
      · rfl
    · have hl' := Option.not_isSome_iff_eq_none.mp hl
      refine ⟨hl', ?_⟩
      by_cases hs : ((SavantIdMap.from_zones config.savant_zones).ra2_to_savant id).isSome
        = true
      · exact hs
      exfalso
      apply hne
      have hs' := Option.not_isSome_iff_eq_none.mp hs
      simp [hl', hs']

/-- Witness for C1 on a one-LEAP-zone, one-Savant-zone configuration:
id 1 routes only to LEAP, id 200 only to Savant, id 99 warns. -/
theorem c1_routing_by_ownership_witness :
    (∃ req, ra2_to_leap (.SetOutput 1 75 none)
        (IdMap.from_zones (⟨⟨"h".data, 8081⟩, 6023, 8080,
          [⟨1, "/zone/5".data, "K".data⟩], some ⟨"s".data, 8480⟩,
          [⟨200, "001".data, 0, "S".data, "R".data⟩]⟩ : Config).zones) = some req ∧
      bridge_route ⟨⟨"h".data, 8081⟩, 6023, 8080, [⟨1, "/zone/5".data, "K".data⟩],
          some ⟨"s".data, 8480⟩, [⟨200, "001".data, 0, "S".data, "R".data⟩]⟩
        (.SetOutput 1 75 none) = ⟨[req], [], 0⟩)
    ∧ (∃ req, ra2_to_savant (.SetOutput 200 75 none)
        (SavantIdMap.from_zones (⟨⟨"h".data, 8081⟩, 6023, 8080,
          [⟨1, "/zone/5".data, "K".data⟩], some ⟨"s".data, 8480⟩,
          [⟨200, "001".data, 0, "S".data, "R".data⟩]⟩ : Config).savant_zones) = some req ∧
      bridge_route ⟨⟨"h".data, 8081⟩, 6023, 8080, [⟨1, "/zone/5".data, "K".data⟩],
          some ⟨"s".data, 8480⟩, [⟨200, "001".data, 0, "S".data, "R".data⟩]⟩
        (.SetOutput 200 75 none) = ⟨[], [req], 0⟩)
    ∧ bridge_route ⟨⟨"h".data, 8081⟩, 6023, 8080, [⟨1, "/zone/5".data, "K".data⟩],
          some ⟨"s".data, 8480⟩, [⟨200, "001".data, 0, "S".data, "R".data⟩]⟩
        (.QueryOutput 99) = ⟨[], [], 1⟩ :=
  ⟨(c1_routing_by_ownership _ (.SetOutput 1 75 none) 1 rfl).1 ⟨"/zone/5".data, rfl⟩,
   (c1_routing_by_ownership _ (.SetOutput 200 75 none) 200 rfl).2.1 rfl rfl
     ⟨("001".data, 0), rfl⟩,
   (c1_routing_by_ownership _ (.QueryOutput 99) 99 rfl).2.2.1 rfl rfl⟩

/-- C2: whenever some zone id appears in both the LEAP zone list and the
Savant zone list, `Config::validate` rejects the merged configuration
with an error; the savant-discovery save path then reports `Failed` and
writes nothing to disk; every validation error names a conflicting id
(and, for a savant-pass conflict, the conflicting Savant zone); and in a
configuration whose two lists are internally duplicate-free the error is
exactly the message naming a conflicting Savant zone. -/
theorem c2_conflicting_config_rejected (base : Config) (sc : SavantConfig)
    (szs : List SavantZoneMapping)
    (hconf : ∃ z ∈ szs, z.ra2_id ∈ base.zones.map ZoneMapping.ra2_id) :
    (∃ msg, ({base with savant := some sc, savant_zones := szs} : Config).validate
        = .error msg)
    ∧ (savant_discover_apply base sc szs).savedConfig = none
    ∧ (∃ msg, (savant_discover_apply base sc szs).status = .Failed msg)
    ∧ (∀ msg, ({base with savant := some sc, savant_zones := szs} : Config).validate
        = .error msg →
        (∃ dupId, msg = dupLeapMsg dupId) ∨ ∃ z ∈ szs, msg = dupSavantMsg z.ra2_id z.name)
    ∧ ((base.zones.map ZoneMapping.ra2_id).Nodup →
        (szs.map SavantZoneMapping.ra2_id).Nodup →
        ∃ z ∈ szs, z.ra2_id ∈ base.zones.map ZoneMapping.ra2_id ∧
          ({base with savant := some sc, savant_zones := szs} : Config).validate
            = .error (dupSavantMsg z.ra2_id z.name)) := by
  have herr : ∃ msg,
      ({base with savant := some sc, savant_zones := szs} : Config).validate
        = .error msg := by
    rw [Config.validate]
    cases he : validateLeapZones [] base.zones with
    | error e => exact ⟨e, rfl⟩
    | ok seen =>
      cases hs : validateSavantZones seen szs with
      | error msg => exact ⟨msg, hs⟩
      | ok u =>
        exfalso
        obtain ⟨z, hz, hzid⟩ := hconf
        cases u
        have := (validateSavantZones_ok_iff seen szs).mp hs
        exact this.2 z hz ((validateLeapZones_ok_mem he z.ra2_id).mpr (Or.inr hzid))
  obtain ⟨msg0, hmsg0⟩ := herr
  refine ⟨⟨msg0, hmsg0⟩, ?_, ?_, ?_, ?_⟩
  · rw [savant_discover_apply, hmsg0]
  · rw [savant_discover_apply, hmsg0]
    exact ⟨msg0, rfl⟩
  · intro msg hmsg
    rw [Config.validate] at hmsg
    cases he : validateLeapZones [] base.zones with
    | error e =>
      rw [he] at hmsg
      injection hmsg with hmsg
      obtain ⟨z, _, hz⟩ := validateLeapZones_error_shape he
      exact Or.inl ⟨z.ra2_id, hmsg ▸ hz⟩
    | ok seen =>
      rw [he] at hmsg
      obtain ⟨z, hz, hzmsg⟩ := validateSavantZones_error_shape hmsg
      exact Or.inr ⟨z, hz, hzmsg⟩
  · intro hnl hns
    have hok : ∃ seen, validateLeapZones [] base.zones = .ok seen :=
      (validateLeapZones_ok_iff [] base.zones).mpr ⟨hnl, by simp⟩
    obtain ⟨seen, hseen⟩ := hok
    have hmem := validateLeapZones_ok_mem hseen
    obtain ⟨z0, hz0, hz0id⟩ := hconf
    obtain ⟨z, hz, hzseen, hrun⟩ := validateSavantZones_conflict hns
      ⟨z0, hz0, (hmem z0.ra2_id).mpr (Or.inr hz0id)⟩
    refine ⟨z, hz, ?_, ?_⟩
    · rcases (hmem z.ra2_id).mp hzseen with h | h
      · cases h
      · exact h
    · rw [Config.validate]
      simp only [hseen]
      exact hrun

/-- Witness for C2: a Savant zone reusing LEAP zone id 1 is rejected, not
saved, and the error names the conflicting Savant zone. -/
theorem c2_conflicting_config_rejected_witness :
    (∃ msg, (⟨⟨"h".data, 8081⟩, 6023, 8080, [⟨1, "/zone/5".data, "K".data⟩],
        some ⟨"s".data, 8480⟩,
        [⟨1, "001".data, 0, "S".data, "R".data⟩]⟩ : Config).validate
        = .error msg)
    ∧ (savant_discover_apply
        ⟨⟨"h".data, 8081⟩, 6023, 8080, [⟨1, "/zone/5".data, "K".data⟩], none, []⟩
        ⟨"s".data, 8480⟩ [⟨1, "001".data, 0, "S".data, "R".data⟩]).savedConfig = none := by
  have h := c2_conflicting_config_rejected
    ⟨⟨"h".data, 8081⟩, 6023, 8080, [⟨1, "/zone/5".data, "K".data⟩], none, []⟩
    ⟨"s".data, 8480⟩ [⟨1, "001".data, 0, "S".data, "R".data⟩]
    ⟨⟨1, "001".data, 0, "S".data, "R".data⟩, by simp, by simp⟩
  exact ⟨h.1, h.2.1⟩

/-- C7 counterexample: a configuration whose two LEAP zones share the
backend key `/zone/5` (with distinct zone ids) passes `Config::validate`,
so duplicate backend keys are not rejected before the map is built. -/
theorem c7_counterexample_dup_backend_key_accepted :
    (⟨⟨"h".data, 8081⟩, 6023, 8080,
      [⟨1, "/zone/5".data, "K".data⟩, ⟨2, "/zone/5".data, "L".data⟩],
      none, []⟩ : Config).validate = .ok ()
    ∧ ¬(([⟨1, "/zone/5".data, "K".data⟩, ⟨2, "/zone/5".data, "L".data⟩]
        : List ZoneMapping).map ZoneMapping.leap_href).Nodup := by
  constructor
  · rfl
  · decide

/-- C7 amended: validation before map construction rejects exactly
duplicate zone ids — `Config::validate` succeeds if and only if the
concatenation of the two id lists is duplicate-free; duplicate backend
keys are not checked at all. -/
theorem c7_amended_validate_iff_nodup_ids (cfg : Config) :
    cfg.validate = .ok () ↔
      (cfg.zones.map ZoneMapping.ra2_id ++
        cfg.savant_zones.map SavantZoneMapping.ra2_id).Nodup := by
  rw [Config.validate]
  cases he : validateLeapZones [] cfg.zones with
  | error e =>
    constructor
    · intro h; cases h
    · intro h
      exfalso
      obtain ⟨s', hs'⟩ := (validateLeapZones_ok_iff [] cfg.zones).mpr
        ⟨(List.nodup_append.mp h).1, by simp⟩
      rw [he] at hs'
      cases hs'
  | ok seen =>
    have hmem := validateLeapZones_ok_mem he
    have hleapnodup : (cfg.zones.map ZoneMapping.ra2_id).Nodup :=
      ((validateLeapZones_ok_iff [] cfg.zones).mp ⟨seen, he⟩).1
    simp only []
    rw [validateSavantZones_ok_iff, List.nodup_append]
    constructor
    · rintro ⟨hsnodup, hdisj⟩
      refine ⟨hleapnodup, hsnodup, ?_⟩
      intro a ha hb
      rw [List.mem_map] at hb
      obtain ⟨z, hz, rfl⟩ := hb
      exact hdisj z hz ((hmem z.ra2_id).mpr (Or.inr ha))
    · rintro ⟨_, hsnodup, hdisj⟩
      refine ⟨hsnodup, ?_⟩
      intro z hz hzseen
      rcases (hmem z.ra2_id).mp hzseen with h | h
      · cases h
      · exact hdisj h (List.mem_map_of_mem SavantZoneMapping.ra2_id hz)

theorem client_run_delays_mem_bounds :
    ∀ (tr : List ConnOutcome) (b : Nat), 1 ≤ b → b ≤ 60 →
      ∀ d ∈ client_run_delays b tr, 1 ≤ d ∧ d ≤ 60 := by
  intro tr
  induction tr with
  | nil =>
    intro b _ _ d hd
    cases hd
  | cons o rest ih =>
    intro b hb1 hb2 d hd
    cases o with
    | closedGracefully => cases hd
    | failed cf =>
      rw [client_run_delays] at hd
      rcases List.mem_cons.mp hd with rfl | hd'
      · exact ⟨hb1, hb2⟩
      · exact ih (min (b * 2) 60) (by omega) (by omega) d hd'

theorem client_run_delays_mem_ge :
    ∀ (tr : List ConnOutcome) (b : Nat), b ≤ 60 →
      ∀ d ∈ client_run_delays b tr, b ≤ d := by
  intro tr
  induction tr with
  | nil =>
    intro b _ d hd
    cases hd
  | cons o rest ih =>
    intro b hb d hd
    cases o with
    | closedGracefully => cases hd
    | failed cf =>
      rw [client_run_delays] at hd
      rcases List.mem_cons.mp hd with rfl | hd'
      · exact le_refl d
      · have := ih (min (b * 2) 60) (by omega) d hd'
        omega

theorem client_run_delays_chain :
    ∀ (tr : List ConnOutcome) (b : Nat), b ≤ 60 →
      (client_run_delays b tr).Chain' (· ≤ ·) := by
  intro tr
  induction tr with
  | nil =>
    intro b _
    exact List.chain'_nil
  | cons o rest ih =>
    intro b hb
    cases o with
    | closedGracefully => exact List.chain'_nil
    | failed cf =>
      rw [client_run_delays]
      rw [List.chain'_cons']
      refine ⟨?_, ih (min (b * 2) 60) (by omega)⟩
      intro y hy
      have hmem := List.mem_of_mem_head? hy
      have := client_run_delays_mem_ge rest (min (b * 2) 60) (by omega) y hmem
      omega

theorem client_run_delays_closed_form :
    ∀ (tr : List ConnOutcome), (∀ o ∈ tr, o ≠ ConnOutcome.closedGracefully) →
      ∀ (b : Nat), 1 ≤ b → b ≤ 60 →
      ∀ i, i < (client_run_delays b tr).length →
        (client_run_delays b tr)[i]? = some (min (b * 2 ^ i) 60) := by
  intro tr
  induction tr with
  | nil =>
    intro _ b _ _ i hi
    cases hi
  | cons o rest ih =>
    intro hall b hb1 hb2 i hi
    cases o with
    | closedGracefully => exact absurd rfl (hall _ (by simp))
    | failed cf =>
      rw [client_run_delays] at hi ⊢
      cases i with
      | zero =>
        simp only [List.getElem?_cons_zero, pow_zero, Nat.mul_one]
        rw [Nat.min_eq_left hb2]
      | succ i =>
        rw [List.getElem?_cons_succ]
        rw [List.length_cons] at hi
        rw [ih (fun o ho => hall o (by simp [ho])) (min (b * 2) 60) (by omega) (by omega)
          i (by omega)]
        congr 1
        by_cases hcap : b * 2 ≤ 60
        · rw [Nat.min_eq_left hcap, pow_succ]
          ring_nf
        · push_neg at hcap
          rw [Nat.min_eq_right (le_of_lt hcap)]
          have hp : 1 ≤ 2 ^ i := Nat.one_le_two_pow
          have h60 : 60 ≤ 60 * 2 ^ i := by
            calc 60 = 60 * 1 := by ring
            _ ≤ 60 * 2 ^ i := Nat.mul_le_mul_left 60 hp
          rw [Nat.min_eq_right h60]
          have hbig : 60 ≤ b * 2 ^ (i + 1) := by
            have h2 : 2 ≤ 2 ^ (i + 1) := by
              calc 2 = 2 ^ 1 := by ring
              _ ≤ 2 ^ (i + 1) := Nat.pow_le_pow_right (by omega) (by omega)
            calc 60 ≤ b * 2 := by omega
            _ ≤ b * 2 ^ (i + 1) := Nat.mul_le_mul_left b h2
          rw [Nat.min_eq_right hbig]

/-- C3 counterexample: after two failed attempts (delays 1s, 2s), an
attempt that connects successfully and later fails is followed by a 4s
delay, not the 1s delay the reset-on-success rule mandates; the code's
delay list differs from the spec-modelled one. -/
theorem c3_counterexample_no_reset_after_success :
    run_delays [.failed false, .failed true, .failed false] = [1, 2, 4]
    ∧ spec_delays 1 [.failed false, .failed true, .failed false] = [1, 1, 2]
    ∧ run_delays [.failed false, .failed true, .failed false]
        ≠ spec_delays 1 [.failed false, .failed true, .failed false] :=
  ⟨rfl, rfl, by decide⟩

/-- C3 amended: for both backend clients the reconnect delays are
monotonically non-decreasing, start at 1s, double after each failure and
cap at 60s (so the k-th delay is `min (2^k) 60`); but the backoff is
never reset by a successful connection — after a success that later
fails, the delay continues from the accumulated value. -/
theorem c3_amended_backoff_doubles_capped_no_reset (outcomes : List ConnOutcome) :
    (run_delays outcomes).Chain' (· ≤ ·)
    ∧ (∀ d ∈ run_delays outcomes, 1 ≤ d ∧ d ≤ 60)
    ∧ ((∀ o ∈ outcomes, o ≠ ConnOutcome.closedGracefully) →
        ∀ i, i < (run_delays outcomes).length →
          (run_delays outcomes)[i]? = some (min (2 ^ i) 60)) := by
  refine ⟨client_run_delays_chain outcomes 1 (by omega),
    client_run_delays_mem_bounds outcomes 1 (by omega) (by omega), ?_⟩
  intro hall i hi
  have := client_run_delays_closed_form outcomes hall 1 (by omega) (by omega) i hi
  rw [run_delays]
  rw [this]
  congr 1
  omega

/-- Witness for C3 amended at a five-failure trace. -/
theorem c3_amended_backoff_doubles_capped_no_reset_witness :
    (run_delays [.failed false, .failed true, .failed false, .failed false,
        .failed false]).Chain' (· ≤ ·)
    ∧ (run_delays [.failed false, .failed true, .failed false, .failed false,
        .failed false])[3]? = some (min (2 ^ 3) 60) :=
  ⟨(c3_amended_backoff_doubles_capped_no_reset
      [.failed false, .failed true, .failed false, .failed false, .failed false]).1,
   (c3_amended_backoff_doubles_capped_no_reset
      [.failed false, .failed true, .failed false, .failed false, .failed false]).2.2
      (by decide) 3 (by decide)⟩

/-- C8 counterexample: on the successful pairing path the private-key
write (and every other artifact write) has no preceding backup rename —
`writesBackedUp` fails on the pairing trace. -/
theorem c8_counterexample_pairing_writes_not_backed_up :
    writesBackedUp (pairFileOps "certs".data true) = false
    ∧ FsOp.writeFile ("certs".data ++ "/ra-bridge.key".data) ∈
        pairFileOps "certs".data true :=
  ⟨rfl, by decide⟩

/-- C8 amended: the pairing flow writes the private key immediately, and
the signed certificate and CA certificate once the exchange succeeds, but
performs no backup of any pre-existing file: the trace contains no rename
operation at all, so pre-existing artifacts are overwritten in place. -/
theorem c8_amended_pair_overwrites_without_backup (dir : List Char) (ok : Bool) :
    (∀ op ∈ pairFileOps dir ok, op.isRename = false)
    ∧ FsOp.writeFile (dir ++ "/ra-bridge.key".data) ∈ pairFileOps dir ok
    ∧ (ok = true →
        FsOp.writeFile (dir ++ "/ra-bridge.crt".data) ∈ pairFileOps dir ok
        ∧ FsOp.writeFile (dir ++ "/ca.crt".data) ∈ pairFileOps dir ok)
    ∧ writesBackedUp (pairFileOps dir ok) = false := by
  refine ⟨?_, ?_, ?_, ?_⟩
  · intro op hop
    rw [pairFileOps] at hop
    rcases List.mem_cons.mp hop with rfl | hop'
    · rfl
    rcases List.mem_cons.mp hop' with rfl | hop''
    · rfl
    cases ok with
    | true =>
      simp only [if_true] at hop''
      rcases List.mem_cons.mp hop'' with rfl | hop3
      · rfl
      rcases List.mem_cons.mp hop3 with rfl | hop4
      · rfl
      cases hop4
    | false =>
      simp only [if_false] at hop''
      cases hop''
  · rw [pairFileOps]
    simp
  · intro hok
    subst hok
    rw [pairFileOps]
    constructor
    · simp
    · simp
  · rw [pairFileOps, writesBackedUp, writesBackedUpAux, writesBackedUpAux]
    simp [isBackupOf]
    intro p h
    cases h

/-- Witness for C8 amended on the successful path in a concrete
directory. -/
theorem c8_amended_pair_overwrites_without_backup_witness :
    FsOp.writeFile ("certs".data ++ "/ra-bridge.crt".data) ∈ pairFileOps "certs".data true
    ∧ writesBackedUp (pairFileOps "certs".data true) = false :=
  ⟨((c8_amended_pair_overwrites_without_backup "certs".data true).2.2.1 rfl).1,
   (c8_amended_pair_overwrites_without_backup "certs".data true).2.2.2⟩

theorem natToDec_lt10 {n : Nat} (h : n < 10) : natToDec n = [decDigitChar n] := by
  by_cases h0 : n = 0
  · subst h0
    rfl
  · rw [natToDec, if_neg h0, toDecRev_cons h0]
    rw [Nat.div_eq_of_lt h, Nat.mod_eq_of_lt h, toDecRev_zero]
    rfl

theorem natToDec_two_digits {n : Nat} (h1 : 10 ≤ n) (h2 : n < 100) :
    natToDec n = [decDigitChar (n / 10), decDigitChar (n % 10)] := by
  have h0 : n ≠ 0 := by omega
  have hd9 : n / 10 < 10 := by omega
  rw [natToDec, if_neg h0, toDecRev_cons h0, toDecRev_cons (by omega : ¬ n / 10 = 0)]
  rw [Nat.div_eq_of_lt hd9, Nat.mod_eq_of_lt hd9, toDecRev_zero]
  rfl

theorem fmt2_shape_aux (pre : List Char) (m : Nat) :
    ∃ ip d1 d2,
      (pre ++ natToDec (m / 100) ++ '.' ::
          (if m % 100 < 10 then '0' :: natToDec (m % 100) else natToDec (m % 100)))
        = ip ++ ['.', d1, d2] ∧ isDecDigit d1 = true ∧ isDecDigit d2 = true := by
  have hlt : m % 100 < 100 := Nat.mod_lt _ (by norm_num)
  by_cases hc : m % 100 < 10
  · refine ⟨pre ++ natToDec (m / 100), '0', decDigitChar (m % 100),
      ?_, by decide, isDecDigit_decDigitChar hc⟩
    rw [if_pos hc, natToDec_lt10 hc]
  · push_neg at hc
    refine ⟨pre ++ natToDec (m / 100), decDigitChar (m % 100 / 10),
      decDigitChar (m % 100 % 10), ?_,
      isDecDigit_decDigitChar (by omega), isDecDigit_decDigitChar (Nat.mod_lt _ (by norm_num))⟩
    rw [if_neg (by omega), natToDec_two_digits hc hlt]

/-- The two-decimal formatter always renders a dot followed by exactly
two decimal digits. -/
theorem fmt2_shape (q : ℚ) :
    ∃ ip d1 d2, fmt2 q = ip ++ ['.', d1, d2] ∧
      isDecDigit d1 = true ∧ isDecDigit d2 = true := by
  rw [fmt2]
  exact fmt2_shape_aux _ _

/-- Parsing a well-formed `#OUTPUT,<id>,1,<level>` line yields the
`SetOutput` command with that id and level and no fade. -/
theorem parse_command_set_output (id : Nat) (hid : id < 2 ^ 32) (s : List Char) (q : ℚ)
    (hs : parse_f64 s = some q)
    (hcomma : s.all (fun c => decide (c ≠ ',')) = true)
    (hws : s.all (fun c => !rustIsWhitespace c) = true) :
    parse_command ("#OUTPUT,".data ++ natToDec id ++ ",1,".data ++ s)
      = .ok (some (.SetOutput id q none)) := by
  have hall : ("#OUTPUT,".data ++ natToDec id ++ ",1,".data ++ s).all
      (fun c => !rustIsWhitespace c) = true := by
    have h1 : ("#OUTPUT,".data).all (fun c => !rustIsWhitespace c) = true := by decide
    have h2 : (",1,".data).all (fun c => !rustIsWhitespace c) = true := by decide
    simp only [List.all_append, h1, h2, natToDec_no_ws id, hws, Bool.and_self]
  have hline := trimStr_of_no_ws hall
  have hsplit : splitOnChar ',' ("OUTPUT,".data ++ natToDec id ++ ",1,".data ++ s)
      = ["OUTPUT".data, natToDec id, ['1'], s] := by
    have e1 : ("OUTPUT,".data ++ natToDec id ++ ",1,".data ++ s : List Char)
        = "OUTPUT".data ++ ',' :: (natToDec id ++ ',' :: (['1'] ++ ',' :: s)) := by
      simp [String.data]
    rw [e1, splitOnChar_append (by decide)]
    rw [splitOnChar_append (natToDec_no_comma id)]
    rw [splitOnChar_append (by decide)]
    rw [splitOnChar_of_no_sep hcomma]
  have hact : parse_action ["OUTPUT".data, natToDec id, ['1'], s]
      = some (.SetOutput id q none) := by
    have t1 : parse_u32 (trimStr ['1']) = some 1 := by decide
    have tS : trimStr s = s := trimStr_of_no_ws hws
    simp only [parse_action, trimStr_natToDec, parse_u32_natToDec hid, t1, tS, hs]
    rfl
  have e0 : ("#OUTPUT,".data ++ natToDec id ++ ",1,".data ++ s : List Char)
      = '#' :: ("OUTPUT,".data ++ natToDec id ++ ",1,".data ++ s) := by
    simp [String.data]
  rw [parse_command.eq_def, hline, e0]
  show PanicOr.ok (parse_action (splitOnChar ','
      ("OUTPUT,".data ++ natToDec id ++ ",1,".data ++ s))) = _
  rw [hsplit, hact]

/-- C5: for every valid `#OUTPUT,<id>,1,<level>` line (id a `u32`
numeral, level a decimal numeral with no comma or whitespace),
`parse_command` yields the `SetOutput` command with that id and level,
and `format_event` on the corresponding `OutputLevel` event renders
`~OUTPUT,<id>,1,<level>` with the level at exactly two decimal places. -/
theorem c5_parse_format_round_trip (id : Nat) (s : List Char) (q : ℚ)
    (hid : id < 2 ^ 32)
    (hs : parse_f64 s = some q)
    (hcomma : s.all (fun c => decide (c ≠ ',')) = true)
    (hws : s.all (fun c => !rustIsWhitespace c) = true) :
    parse_command ("#OUTPUT,".data ++ natToDec id ++ ",1,".data ++ s)
      = .ok (some (.SetOutput id q none))
    ∧ format_event (.OutputLevel id q)
      = "~OUTPUT,".data ++ natToDec id ++ ",1,".data ++ fmt2 q
    ∧ ∃ ip d1 d2, fmt2 q = ip ++ ['.', d1, d2] ∧
        isDecDigit d1 = true ∧ isDecDigit d2 = true :=
  ⟨parse_command_set_output id hid s q hs hcomma hws, rfl, fmt2_shape q⟩

theorem roundHalfEven_natCast (n : Nat) : roundHalfEven ((n : Nat) : ℚ) = (n : ℤ) := by
  rw [roundHalfEven]
  have hf : ⌊((n : Nat) : ℚ)⌋ = (n : ℤ) := Int.floor_natCast n
  rw [hf]
  have hr : ((n : Nat) : ℚ) - ((n : ℤ) : ℚ) = 0 := by push_cast; ring
  rw [hr]
  rw [if_pos (by norm_num)]

/-- Two-decimal rendering of a whole number appends `.00`. -/
theorem fmt2_natCast (n : Nat) : fmt2 ((n : Nat) : ℚ) = natToDec n ++ ['.', '0', '0'] := by
  rw [fmt2]
  have h1 : (((n : Nat) : ℚ) * 100) = ((n * 100 : Nat) : ℚ) := by push_cast; ring
  rw [h1, roundHalfEven_natCast]
  have hneg : ¬(((n : Nat) : ℚ) < 0) := not_lt.mpr (Nat.cast_nonneg n)
  rw [if_neg hneg]
  have habs : ((n * 100 : Nat) : ℤ).natAbs = n * 100 := Int.natAbs_ofNat _
  rw [habs]
  have hdiv : n * 100 / 100 = n := by omega
  have hmod : n * 100 % 100 = 0 := by omega
  rw [hdiv, hmod, if_pos (by norm_num)]
  rfl

theorem parse_f64_dec100 : parse_f64 "100".data = some ((100 : Nat) : ℚ) := by
  have h1 : natToDec 100 = "100".data := by decide
  have h2 := parse_f64_natToDec 100
  rw [h1] at h2
  exact h2

/-- Witness for C5: the line `#OUTPUT,1,1,100` parses to a set command at
level 100 and the matching event renders `~OUTPUT,1,1,100.00`. -/
theorem c5_parse_format_round_trip_witness :
    parse_command ("#OUTPUT,".data ++ natToDec 1 ++ ",1,".data ++ "100".data)
      = .ok (some (.SetOutput 1 ((100 : Nat) : ℚ) none))
    ∧ format_event (.OutputLevel 1 ((100 : Nat) : ℚ))
      = "~OUTPUT,".data ++ natToDec 1 ++ ",1,".data ++ fmt2 ((100 : Nat) : ℚ)
    ∧ fmt2 ((100 : Nat) : ℚ) = "100.00".data :=
  ⟨(c5_parse_format_round_trip 1 "100".data ((100 : Nat) : ℚ) (by norm_num)
      parse_f64_dec100 (by decide) (by decide)).1,
   (c5_parse_format_round_trip 1 "100".data ((100 : Nat) : ℚ) (by norm_num)
      parse_f64_dec100 (by decide) (by decide)).2.1,
   by rw [fmt2_natCast]; decide⟩

/-- C10: `parse_command` is not total — on a line whose trimmed first
character is multi-byte (here `é`, two UTF-8 bytes), the source slices
`&line[1..]` off a character boundary and panics, although the spec says
a line that fails to parse is silently ignored. The model evaluates to
the panic at the failing input, while an ASCII-prefixed line of the same
shape parses normally. -/
theorem c10_parse_command_panics_on_multibyte_first_char :
    parse_command ['é'] = .panicked
    ∧ 'é'.utf8Size = 2
    ∧ parse_command "é,1,1,50".data = .panicked
    ∧ parse_command "x,1,1,50".data = .ok none := by
  refine ⟨rfl, rfl, rfl, rfl⟩

theorem isDecDigit_ne_pct {c : Char} (h : isDecDigit c = true) : c ≠ '%' := by
  intro hc; subst hc; exact absurd h (by decide)

theorem isDecDigit_ne_dot {c : Char} (h : isDecDigit c = true) : c ≠ '.' := by
  intro hc; subst hc; exact absurd h (by decide)

theorem natToDec_filter_pct (n : Nat) :
    (natToDec n).filter (fun c => decide (c ≠ '%')) = natToDec n := by
  rw [List.filter_eq_self]
  intro c hc
  have h := natToDec_all_digits n
  rw [List.all_eq_true] at h
  exact decide_eq_true (isDecDigit_ne_pct (h c hc))

theorem natToDec_no_dot (n : Nat) :
    (natToDec n).all (fun c => decide (c ≠ '.')) = true := by
  rw [List.all_eq_true]
  intro c hc
  have h := natToDec_all_digits n
  rw [List.all_eq_true] at h
  exact decide_eq_true (isDecDigit_ne_dot (h c hc))

theorem stripPre_append (pre rest : List Char) :
    stripPre pre (pre ++ rest) = some rest := by
  rw [stripPre, if_pos (List.take_left pre rest)]
  rw [List.drop_left]

/-- The wire load key of `encode_request` for an in-range address and
offset is the plain sum `address * 2^16 + offset`. -/
theorem load_key_eq {a off : Nat} (ha : a < 2 ^ 16) (hoff : off < 1024) :
    (a <<< 16) % 2 ^ 32 ||| (off % 2 ^ 32 &&& 1023) = a * 2 ^ 16 + off := by
  rw [Nat.shiftLeft_eq]
  rw [Nat.mod_eq_of_lt (by omega : a * 2 ^ 16 < 2 ^ 32)]
  rw [Nat.mod_eq_of_lt (by omega : off < 2 ^ 32)]
  have h1023 : (1023 : Nat) = 2 ^ 10 - 1 := by norm_num
  rw [h1023, Nat.and_pow_two_sub_one_eq_mod]
  rw [Nat.mod_eq_of_lt (by omega : off < 2 ^ 10)]
  have := Nat.mul_add_lt_is_or (by omega : off < 2 ^ 16) a
  rw [Nat.mul_comm (2 ^ 16) a] at this
  exact this.symm

theorem load_key_shiftRight {a off : Nat} (hoff : off < 1024) :
    (a * 2 ^ 16 + off) >>> 16 = a := by
  rw [Nat.shiftRight_eq_div_pow]
  omega

theorem load_key_land {a off : Nat} (hoff : off < 1024) :
    (a * 2 ^ 16 + off) &&& 1023 = off := by
  have h1023 : (1023 : Nat) = 2 ^ 10 - 1 := by norm_num
  rw [h1023, Nat.and_pow_two_sub_one_eq_mod]
  omega

/-- Decoding the `load.{hex}` set-echo produced for an in-range address
and offset emits the event for exactly the canonical `{:03X}` address and
the original offset. -/
theorem parse_state_body_load_echo (a off n id : Nat) (nm rm : List Char)
    (ha : a < 2 ^ 16) (hoff : off < 1024) :
    parse_state_body
      (.obj [("state".data, .str ("load.".data ++ natToHexLower (a * 2 ^ 16 + off))),
             ("value".data, .str (natToDec n ++ "%.0".data))])
      "state/set".data [⟨id, fmtHexUpper3 a, off, nm, rm⟩]
    = [.LoadLevel (fmtHexUpper3 a) off ((n : Nat) : ℚ)] := by
  have hkey : a * 2 ^ 16 + off < 2 ^ 32 := by omega
  rw [parse_state_body.eq_def]
  rw [show (((Json.obj [("state".data,
        Json.str ("load.".data ++ natToHexLower (a * 2 ^ 16 + off))),
      ("value".data, Json.str (natToDec n ++ "%.0".data))]).get
        "state".data).bind Json.as_str).getD []
      = "load.".data ++ natToHexLower (a * 2 ^ 16 + off) from rfl]
  simp only []
  rw [stripPre_append]
  simp only [parse_hex_u32_natToHexLower hkey]
  rw [load_key_shiftRight hoff, load_key_land hoff]
  rw [show ((Json.obj [("state".data,
        Json.str ("load.".data ++ natToHexLower (a * 2 ^ 16 + off))),
      ("value".data, Json.str (natToDec n ++ "%.0".data))]).get
        "value".data).bind Json.as_str
      = some (natToDec n ++ "%.0".data) from rfl]
  simp only []
  rw [List.filter_append, natToDec_filter_pct]
  rw [show ("%.0".data).filter (fun c => decide (c ≠ '%')) = '.' :: ['0'] from rfl]
  rw [splitOnChar_append (natToDec_no_dot n)]
  rw [show (natToDec n :: splitOnChar '.' ['0']).headD
      (natToDec n ++ '.' :: ['0']) = natToDec n from rfl]
  rw [trimStr_natToDec, parse_f64_natToDec]
  simp [emit_if_tracked, List.find?]

/-- The Savant `state/set` message produced by `encode_request` for an
in-range address/offset: state key `load.{hex of a*2^16+off}`, value
`{rounded level}%.0`. -/
theorem encode_request_set_load (a off : Nat) (lvl : ℚ)
    (ha : a < 2 ^ 16) (hoff : off < 1024) :
    encode_request (.SetLoad (fmtHexUpper3 a) off lvl)
      = .obj [("messages".data, .arr [.obj
          [("state".data, .str ("load.".data ++ natToHexLower (a * 2 ^ 16 + off))),
           ("value".data, .str (natToDec (ratRoundAsU32 lvl) ++ "%.0".data))]]),
          ("URI".data, .str "state/set".data)] := by
  rw [encode_request.eq_def]
  simp only []
  rw [parse_hex_u32_fmtHexUpper3 (by omega : a < 2 ^ 32)]
  simp only [Option.getD_some]
  rw [load_key_eq ha hoff]

/-- C4 counterexample: encoding the load key for address string `1` and
offset 0 gives state key `load.10000`, but decoding that key yields
address `001` — so the configured zone with address `1` is not matched
and the original pair is not recovered; the decoded address string
differs from the original. -/
theorem c4_counterexample_address_not_recovered :
    natToHexLower (((parse_hex_u32 "1".data).getD 0 <<< 16) % 2 ^ 32
        ||| (0 % 2 ^ 32 &&& 1023)) = "10000".data
    ∧ parse_state_body (.obj [("state".data, .str "load.10000".data),
        ("value".data, .str "100%.0".data)]) "state/set".data
        [⟨200, "1".data, 0, "L".data, "R".data⟩] = []
    ∧ (∃ lvl, parse_state_body (.obj [("state".data, .str "load.10000".data),
        ("value".data, .str "100%.0".data)]) "state/set".data
        [⟨200, "001".data, 0, "L".data, "R".data⟩]
        = [.LoadLevel "001".data 0 lvl])
    ∧ ("001".data : List Char) ≠ "1".data :=
  ⟨by decide, rfl, ⟨_, rfl⟩, by decide⟩

/-- C4 amended: the load-key round-trip recovers the original
`(address, offset)` pair exactly for addresses already in the canonical
`{:03X}` form of a value below `2^16` and offsets below 1024: encoding
such a pair and decoding the resulting `load.{hex}` state key emits an
event carrying the same address string and offset (with the level
rounded to an integer percentage). -/
theorem c4_amended_canonical_roundtrip (a off id : Nat) (lvl : ℚ) (nm rm : List Char)
    (ha : a < 2 ^ 16) (hoff : off < 1024) :
    encode_request (.SetLoad (fmtHexUpper3 a) off lvl)
      = .obj [("messages".data, .arr [.obj
          [("state".data, .str ("load.".data ++ natToHexLower (a * 2 ^ 16 + off))),
           ("value".data, .str (natToDec (ratRoundAsU32 lvl) ++ "%.0".data))]]),
          ("URI".data, .str "state/set".data)]
    ∧ parse_state_body
        (.obj [("state".data, .str ("load.".data ++ natToHexLower (a * 2 ^ 16 + off))),
               ("value".data, .str (natToDec (ratRoundAsU32 lvl) ++ "%.0".data))])
        "state/set".data [⟨id, fmtHexUpper3 a, off, nm, rm⟩]
      = [.LoadLevel (fmtHexUpper3 a) off ((ratRoundAsU32 lvl : Nat) : ℚ)] :=
  ⟨encode_request_set_load a off lvl ha hoff,
   parse_state_body_load_echo a off (ratRoundAsU32 lvl) id nm rm ha hoff⟩

/-- Witness for C4 amended at address `001` (canonical form of 1),
offset 2. -/
theorem c4_amended_canonical_roundtrip_witness :
    parse_state_body
      (.obj [("state".data, .str ("load.".data ++ natToHexLower (1 * 2 ^ 16 + 2))),
             ("value".data, .str (natToDec (ratRoundAsU32 ((75 : Nat) : ℚ)) ++ "%.0".data))])
      "state/set".data [⟨200, fmtHexUpper3 1, 2, "L".data, "R".data⟩]
    = [.LoadLevel (fmtHexUpper3 1) 2 ((ratRoundAsU32 ((75 : Nat) : ℚ) : Nat) : ℚ)] :=
  (c4_amended_canonical_roundtrip 1 2 200 ((75 : Nat) : ℚ) "L".data "R".data
    (by norm_num) (by norm_num)).2
